import Mathlib

/-!
Verification of the dependency-graph construction and hierarchical layout
engine of terraform-provider-cartography.

The Go source is shallowly embedded:

* `float64` values are embedded as unnormalized fractions `Frac` over `Int`
  (numerator/denominator), with all arithmetic structural so the kernel can
  evaluate it.  Comparisons are by cross-multiplication, which agrees with
  exact real arithmetic whenever denominators are positive (every operation
  below preserves positive denominators).  `math.Sqrt` is not algebraic, so
  the few places that use its *value* take an explicit square-root function
  `sqrtF : Frac → Frac` as a parameter; concrete evaluations instantiate it
  with `fracSqrt`, which agrees with the real square root on the perfect
  squares arising in those evaluations.
* Go maps are embedded as association lists.  Insertion overwrites the first
  matching key (Go map semantics); lookup takes the first match.  Go
  deliberately randomizes map iteration order, so pipeline functions that
  range over `Graph.Nodes` take the enumeration order as an explicit
  parameter `order : List String`; a real execution corresponds to some
  enumeration of the keys.
* `context.Context` cancellation is embedded as `cancelAt : Nat`: the
  cancellation signal becomes visible at the `cancelAt`-th cancellation
  check performed by `BuildGraph` (checks are counted from 0 in program
  order); a check numbered `k` observes cancellation iff `cancelAt ≤ k`.
* Node attribute values (`map[string]interface{}`) are embedded as `AttrVal`
  (strings, lists, or an opaque "other" constructor for values the modelled
  code never inspects).
* Fields irrelevant to every claim (edge `Metadata`, the derived `Node.Edges`
  adjacency list) are projected away.
-/

/-- Unnormalized fraction: embeds Go `float64` with exact arithmetic.
The denominator is kept positive by every operation below. -/
structure Frac where
  n : Int
  d : Int
deriving DecidableEq, Repr

/-- Build a fraction from an integer. -/
def Frac.ofInt (i : Int) : Frac := ⟨i, 1⟩

instance : OfNat Frac k := ⟨⟨(k : Int), 1⟩⟩

def Frac.add (a b : Frac) : Frac := ⟨a.n * b.d + b.n * a.d, a.d * b.d⟩

def Frac.sub (a b : Frac) : Frac := ⟨a.n * b.d - b.n * a.d, a.d * b.d⟩

def Frac.mul (a b : Frac) : Frac := ⟨a.n * b.n, a.d * b.d⟩

def Frac.neg (a : Frac) : Frac := ⟨-a.n, a.d⟩

/-- Multiplicative inverse, keeping the denominator positive.  Inverting 0
gives 0 (the modelled code only divides by guarded-positive quantities,
except `lineIntersectsRect`, whose Go float ±Inf behaviour at axis-parallel
segments is approximated; no claim below depends on values produced by a
division by zero). -/
def Frac.inv (a : Frac) : Frac :=
  if 0 < a.n then ⟨a.d, a.n⟩ else if a.n < 0 then ⟨-a.d, -a.n⟩ else ⟨0, 1⟩

def Frac.div (a b : Frac) : Frac := a.mul b.inv

instance : Add Frac := ⟨Frac.add⟩
instance : Sub Frac := ⟨Frac.sub⟩
instance : Mul Frac := ⟨Frac.mul⟩
instance : Neg Frac := ⟨Frac.neg⟩
instance : Div Frac := ⟨Frac.div⟩

/-- Value-level strict order (cross multiplication; exact for positive
denominators). -/
def Frac.blt (a b : Frac) : Bool := a.n * b.d < b.n * a.d

/-- Value-level non-strict order. -/
def Frac.ble (a b : Frac) : Bool := a.n * b.d ≤ b.n * a.d

/-- Value-level equality (1/2 equals 2/4). -/
def Frac.eqv (a b : Frac) : Bool := a.n * b.d == b.n * a.d

/-- Absolute value (`math.Abs`). -/
def Frac.abs (a : Frac) : Frac := if a.n < 0 then a.neg else a

/-- `math.Min` on embedded floats. -/
def Frac.fmin (a b : Frac) : Frac := if Frac.blt b a then b else a

/-- Bisection step for the natural square root (fuel-bounded structural
recursion, so the kernel can evaluate it at shallow depth).  Maintains
`lo * lo ≤ m < hi * hi`. -/
def natSqrtGo (m : Nat) : Nat → Nat → Nat → Nat
  | lo, _, 0 => lo
  | lo, hi, fuel + 1 =>
      if hi ≤ lo + 1 then lo
      else
        let mid := (lo + hi) / 2
        if mid * mid ≤ m then natSqrtGo m mid hi fuel
        else natSqrtGo m lo mid fuel

/-- Natural square root by bisection (64 halvings suffice far beyond any
value in this file). -/
def natSqrtL (m : Nat) : Nat := natSqrtGo m 0 (m + 1) 64

/-- Concrete square-root instantiation used for evaluating the embedding:
exact on fractions whose numerator and denominator are perfect squares,
which covers every concrete use in this file. -/
def fracSqrt (q : Frac) : Frac :=
  ⟨Int.ofNat (natSqrtL q.n.toNat), Int.ofNat (natSqrtL q.d.toNat)⟩

/-- Byte-wise string order of Go (`<` on strings), on code points. -/
def charsLt : List Char → List Char → Bool
  | [], [] => false
  | [], _ :: _ => true
  | _ :: _, [] => false
  | a :: as, b :: bs => a.val < b.val || (a == b && charsLt as bs)

/-- Go `string <` comparison. -/
def strLt (a b : String) : Bool := charsLt a.data b.data

/-- Does the character list start with the pattern? -/
def charsLead : List Char → List Char → Bool
  | _, [] => true
  | [], _ :: _ => false
  | c :: cs, p :: ps => c == p && charsLead cs ps

/-- Substring search on character lists. -/
def charsContains : List Char → List Char → Bool
  | [], pat => pat.isEmpty
  | c :: cs, pat => charsLead (c :: cs) pat || charsContains cs pat

/-- Go `strings.Contains`. -/
def strContains (s pat : String) : Bool := charsContains s.data pat.data

/-- Go `strings.ToLower`, character-wise (ASCII suffices for resource
types). -/
def strToLower (s : String) : String := String.mk (s.data.map Char.toLower)

/-- Association-list lookup: first match, as in a Go map (keys unique by
construction). -/
def lookupKey {α : Type} (l : List (String × α)) (k : String) : Option α :=
  match l with
  | [] => none
  | (k', v) :: rest => if k' = k then some v else lookupKey rest k

/-- Go map insertion: overwrite the entry if the key is present, else
append. -/
def putKey {α : Type} (l : List (String × α)) (k : String) (v : α) :
    List (String × α) :=
  match l with
  | [] => [(k, v)]
  | (k', v') :: rest =>
      if k' = k then (k, v) :: rest else (k', v') :: putKey rest k v

/-- Keys of an association list. -/
def keysOf {α : Type} (l : List (String × α)) : List String := l.map Prod.fst

/-- Resource attribute values (`interface{}` in Go), restricted to the
shapes the modelled code inspects. -/
inductive AttrVal where
  | str : String → AttrVal
  | list : List AttrVal → AttrVal
  | other : AttrVal

/-- parser.ResourceType (the category enumeration). -/
inductive ResourceType where
  | unknown
  | network
  | security
  | compute
  | loadBalancer
  | storage
  | database
  | dns
  | certificate
  | secret
  | container
  | cdn
deriving DecidableEq, Repr

/-- parser.Resource. -/
structure Resource where
  rtype : String
  name : String
  provider : String
  attrs : List (String × AttrVal)
  id : String
  deps : List String

/-- Azure lookup table of `GetResourceType`. -/
def azureTypeMap : List (String × ResourceType) :=
  [("azurerm_virtual_network", .network),
   ("azurerm_subnet", .network),
   ("azurerm_network_security_group", .security),
   ("azurerm_network_security_rule", .security),
   ("azurerm_virtual_machine", .compute),
   ("azurerm_linux_virtual_machine", .compute),
   ("azurerm_windows_virtual_machine", .compute),
   ("azurerm_lb", .loadBalancer),
   ("azurerm_lb_backend_address_pool", .loadBalancer),
   ("azurerm_lb_rule", .loadBalancer),
   ("azurerm_storage_account", .storage),
   ("azurerm_managed_disk", .storage),
   ("azurerm_sql_server", .database),
   ("azurerm_sql_database", .database),
   ("azurerm_dns_zone", .dns),
   ("azurerm_key_vault", .secret),
   ("azurerm_key_vault_certificate", .certificate),
   ("azurerm_key_vault_key", .secret),
   ("azurerm_key_vault_secret", .secret)]

/-- AWS lookup table of `GetResourceType`. -/
def awsTypeMap : List (String × ResourceType) :=
  [("aws_vpc", .network),
   ("aws_subnet", .network),
   ("aws_security_group", .security),
   ("aws_security_group_rule", .security),
   ("aws_network_acl", .security),
   ("aws_instance", .compute),
   ("aws_launch_template", .compute),
   ("aws_lb", .loadBalancer),
   ("aws_alb", .loadBalancer),
   ("aws_lb_target_group", .loadBalancer),
   ("aws_lb_listener", .loadBalancer),
   ("aws_s3_bucket", .storage),
   ("aws_ebs_volume", .storage),
   ("aws_db_instance", .database),
   ("aws_dynamodb_table", .database),
   ("aws_route53_zone", .dns),
   ("aws_route53_record", .dns),
   ("aws_acm_certificate", .certificate),
   ("aws_acm_certificate_validation", .certificate),
   ("aws_iam_server_certificate", .certificate),
   ("aws_secretsmanager_secret", .secret),
   ("aws_secretsmanager_secret_version", .secret),
   ("aws_kms_key", .secret),
   ("aws_kms_alias", .secret)]

/-- DigitalOcean lookup table of `GetResourceType`. -/
def digitaloceanTypeMap : List (String × ResourceType) :=
  [("digitalocean_vpc", .network),
   ("digitalocean_firewall", .security),
   ("digitalocean_droplet", .compute),
   ("digitalocean_kubernetes_cluster", .compute),
   ("digitalocean_app", .compute),
   ("digitalocean_loadbalancer", .loadBalancer),
   ("digitalocean_spaces_bucket", .storage),
   ("digitalocean_volume", .storage),
   ("digitalocean_database_cluster", .database),
   ("digitalocean_database_db", .database),
   ("digitalocean_database_replica", .database),
   ("digitalocean_domain", .dns),
   ("digitalocean_record", .dns),
   ("digitalocean_certificate", .certificate),
   ("digitalocean_cdn", .cdn),
   ("digitalocean_container_registry", .container)]

/-- parser.GetResourceType: azure table, then aws, then digitalocean, else
Unknown. -/
def GetResourceType (resourceType : String) : ResourceType :=
  match lookupKey azureTypeMap resourceType with
  | some rt => rt
  | none =>
    match lookupKey awsTypeMap resourceType with
    | some rt => rt
    | none =>
      match lookupKey digitaloceanTypeMap resourceType with
      | some rt => rt
      | none => .unknown

/-- The explicit deny-list of `IsCloudInfraResource`. -/
def excludedTypes : List String :=
  ["tls_private_key", "tls_cert_request", "tls_locally_signed_cert",
   "tls_self_signed_cert", "local_file", "local_sensitive_file",
   "null_resource", "random_id", "random_integer", "random_password",
   "random_pet", "random_shuffle", "random_string", "random_uuid",
   "time_sleep", "time_static", "time_rotating", "time_offset",
   "terraform_data", "external", "http", "template_file", "template_dir",
   "template_cloudinit_config", "archive_file"]

/-- parser.IsCloudInfraResource: true iff the type is not deny-listed. -/
def IsCloudInfraResource (resourceType : String) : Bool :=
  !(excludedTypes.contains resourceType)

/-- parser.ShouldIncludeInDiagram: deny-list filter, then drop types whose
lower-cased name contains "_association" unless it also contains
"load_balancer". -/
def ShouldIncludeInDiagram (resource : Resource) : Bool :=
  if !(IsCloudInfraResource resource.rtype) then false
  else
    let resourceTypeLower := strToLower resource.rtype
    if strContains resourceTypeLower "_association" &&
       !(strContains resourceTypeLower "load_balancer") then false
    else true

/-- graph.Node (the `Edges` back-pointer list is projected away: no claim
mentions it). -/
structure GNode where
  id : String
  rtype : String
  name : String
  provider : String
  resourceType : ResourceType
  attrs : List (String × AttrVal)

/-- graph.Edge (Go stores `*Node` pointers; the embedding stores the node
values, and `Metadata` is projected away: no claim mentions it). -/
structure GEdge where
  fromN : GNode
  toN : GNode
  relationship : String

/-- graph.Graph.  `nodes` is the `Nodes` map as an association list (keys
unique by construction); the attribute index is `(attribute key, string
value) → Node`, keyed by the pair. -/
structure Graph where
  nodes : List (String × GNode)
  edges : List GEdge
  attributeIndex : List ((String × String) × GNode)

/-- graph.edgeExists: is there already an edge with this ordered
`(From.ID, To.ID)` pair? -/
def edgeExists (g : Graph) (fromN toN : GNode) : Bool :=
  g.edges.any (fun e => e.fromN.id == fromN.id && e.toN.id == toN.id)

/-- graph.addEdge: append the edge unless the ordered pair already
exists. -/
def addEdge (g : Graph) (fromN toN : GNode) (relationship : String) :
    Graph :=
  if edgeExists g fromN toN then g
  else { g with edges := g.edges ++ [⟨fromN, toN, relationship⟩] }

/-- graph.inferRelationship: the Go early-return chain, in source order
(a Security source whose target is neither Compute nor LoadBalancer falls
through to the later checks). -/
def inferRelationship (fromN toN : GNode) : String :=
  if fromN.resourceType = .security ∧ toN.resourceType = .compute then
    "protects"
  else if fromN.resourceType = .security ∧ toN.resourceType = .loadBalancer
    then "filters"
  else if fromN.resourceType = .loadBalancer ∧ toN.resourceType = .compute
    then "routes_to"
  else if fromN.resourceType = .network then "contains"
  else if fromN.resourceType = .compute ∧ toN.resourceType = .storage then
    "uses_storage"
  else if fromN.resourceType = .compute ∧ toN.resourceType = .database then
    "connects_to_db"
  else "depends_on"

/-- graph.getAttributeString: the attribute's string value, or "". -/
def getAttributeString (attrs : List (String × AttrVal)) (key : String) :
    String :=
  match lookupKey attrs key with
  | some (.str s) => s
  | _ => ""

/-- graph.buildAttributeIndex: for every node (map order) and every
string-valued attribute, index the node under (key, value); later writes
overwrite earlier ones, as in the Go map. -/
def buildAttributeIndex (g : Graph) : Graph :=
  { g with
    attributeIndex :=
      g.nodes.foldl
        (fun idx kn =>
          kn.2.attrs.foldl
            (fun idx' kv =>
              match kv.2 with
              | .str s =>
                  match idx'.find? (fun e => e.1 = (kv.1, s)) with
                  | some _ =>
                      idx'.map (fun e =>
                        if e.1 = (kv.1, s) then ((kv.1, s), kn.2) else e)
                  | none => idx' ++ [((kv.1, s), kn.2)]
              | _ => idx')
            idx)
        [] }

/-- graph.findNodeByAttributeValue: index hit first, else first node in
map order whose string attribute matches. -/
def findNodeByAttributeValue (g : Graph) (attrKey attrValue : String) :
    Option GNode :=
  match (g.attributeIndex.find? (fun e => e.1 = (attrKey, attrValue))) with
  | some e => some e.2
  | none =>
      match g.nodes.find?
          (fun kn => getAttributeString kn.2.attrs attrKey == attrValue) with
      | some kn => some kn.2
      | none => none

/-- The strings held in a list-valued attribute (Go's
`attr.([]interface{})` followed by per-element `.(string)` checks:
non-string elements are skipped). -/
def attrStringList (attrs : List (String × AttrVal)) (key : String) :
    List String :=
  match lookupKey attrs key with
  | some (.list vs) =>
      vs.foldr (fun v acc => match v with | .str s => s :: acc | _ => acc) []
  | _ => []

/-- Azure rule of detectImplicitConnections: subnet/NSG association nodes
produce an NSG→subnet protects edge. -/
def implicitAzureRule (g : Graph) (node : GNode) : Graph :=
  if node.provider = "azure" ∧
      node.rtype = "azurerm_subnet_network_security_group_association" then
    let subnetID := getAttributeString node.attrs "subnet_id"
    let nsgID := getAttributeString node.attrs "network_security_group_id"
    match findNodeByAttributeValue g "id" subnetID,
          findNodeByAttributeValue g "id" nsgID with
    | some subnetNode, some nsgNode =>
        addEdge g nsgNode subnetNode "protects"
    | _, _ => g
  else g

/-- AWS rule of detectImplicitConnections: an instance's security-group
list produces security-group→instance protects edges. -/
def implicitAWSRule (g : Graph) (node : GNode) : Graph :=
  if node.provider = "aws" ∧ node.rtype = "aws_instance" then
    (attrStringList node.attrs "vpc_security_group_ids").foldl
      (fun acc sgID =>
        match findNodeByAttributeValue acc "id" sgID with
        | some sgNode => addEdge acc sgNode node "protects"
        | none => acc)
      g
  else g

/-- DigitalOcean droplet rule of detectImplicitConnections: firewalls whose
droplet_ids hold this droplet's id produce firewall→droplet protects
edges. -/
def implicitDropletRule (g : Graph) (node : GNode) : Graph :=
  if node.provider = "digitalocean" ∧ node.rtype = "digitalocean_droplet"
    then
    let dropletID := getAttributeString node.attrs "id"
    if dropletID ≠ "" then
      g.nodes.foldl
        (fun acc kfw =>
          let fwNode := kfw.2
          if fwNode.provider = "digitalocean" ∧
              fwNode.rtype = "digitalocean_firewall" then
            (attrStringList fwNode.attrs "droplet_ids").foldl
              (fun acc' idStr =>
                if idStr = dropletID then addEdge acc' fwNode node "protects"
                else acc')
              acc
          else acc)
        g
    else g
  else g

/-- DigitalOcean load-balancer rule of detectImplicitConnections: a load
balancer's droplet_ids produce lb→droplet routes_to edges. -/
def implicitLBRule (g : Graph) (node : GNode) : Graph :=
  if node.provider = "digitalocean" ∧
      node.rtype = "digitalocean_loadbalancer" then
    (attrStringList node.attrs "droplet_ids").foldl
      (fun acc idStr =>
        match findNodeByAttributeValue acc "id" idStr with
        | some dropletNode => addEdge acc node dropletNode "routes_to"
        | none => acc)
      g
  else g

/-- One node's contribution to graph.detectImplicitConnections: the four
provider-specific rules of the Go loop body, in source order. -/
def detectImplicitForNode (g : Graph) (node : GNode) : Graph :=
  implicitLBRule
    (implicitDropletRule (implicitAWSRule (implicitAzureRule g node) node)
      node)
    node

/-- graph.detectImplicitConnections: run the rules for every node of the
`Nodes` map, in map order (the embedding uses insertion order, one of the
orders Go may pick; every claim below is insensitive to this choice). -/
def detectImplicitConnections (g : Graph) : Graph :=
  g.nodes.foldl (fun acc kn => detectImplicitForNode acc kn.2) g

/-- Node-creation step of BuildGraph for one resource (the filter and the
Node literal of the source). -/
def addNodeForResource (g : Graph) (res : Resource) : Graph :=
  if !(ShouldIncludeInDiagram res) then g
  else
    { g with
      nodes := putKey g.nodes res.id
        ⟨res.id, res.rtype, res.name, res.provider,
         GetResourceType res.rtype, res.attrs⟩ }

/-- Phase 1 of BuildGraph: node creation, with a cancellation check (number
`k` onward) at the start of each iteration.  Returns the graph, the next
check number, and whether a check observed cancellation. -/
def buildNodesPhase (cancelAt : Nat) :
    List Resource → Nat → Graph → Graph × Nat × Bool
  | [], k, g => (g, k, false)
  | res :: rest, k, g =>
      if cancelAt ≤ k then (g, k, true)
      else buildNodesPhase cancelAt rest (k + 1) (addNodeForResource g res)

/-- Explicit-edge step of BuildGraph for one resource: one edge per
dependency that resolves to a retained node; unknown references are
silently dropped. -/
def addEdgesForResource (g : Graph) (res : Resource) : Graph :=
  match lookupKey g.nodes res.id with
  | none => g
  | some fromNode =>
      res.deps.foldl
        (fun acc depID =>
          match lookupKey acc.nodes depID with
          | none => acc
          | some toNode =>
              addEdge acc fromNode toNode (inferRelationship fromNode toNode))
        g

/-- Phase 2 of BuildGraph: explicit edges, with a cancellation check at the
start of each iteration. -/
def buildEdgesPhase (cancelAt : Nat) :
    List Resource → Nat → Graph → Graph × Bool
  | [], _, g => (g, false)
  | res :: rest, k, g =>
      if cancelAt ≤ k then (g, true)
      else buildEdgesPhase cancelAt rest (k + 1) (addEdgesForResource g res)

/-- graph.BuildGraph: nodes, attribute index, explicit edges, implicit
connections.  A cancellation check observed during phase 1 or 2 returns the
graph built so far; there is no check before the implicit pass. -/
def BuildGraph (cancelAt : Nat) (resources : List Resource) : Graph :=
  let g0 : Graph := ⟨[], [], []⟩
  match buildNodesPhase cancelAt resources 0 g0 with
  | (g, _, true) => g
  | (g, k, false) =>
      let gi := buildAttributeIndex g
      match buildEdgesPhase cancelAt resources k gi with
      | (g2, true) => g2
      | (g2, false) => detectImplicitConnections g2

/-- renderer.Point. -/
structure Point where
  x : Frac
  y : Frac
deriving DecidableEq, Repr

/-- renderer.NodeLayout (`Layer` is the 0-based rank). -/
structure NodeLayout where
  width : Frac
  height : Frac
  layer : Nat
  position : Point
deriving DecidableEq, Repr

/-- renderer.EdgeLayout. -/
structure EdgeLayout where
  edge : GEdge
  points : List Point

/-- renderer.Layout. -/
structure Layout where
  nodes : List (String × NodeLayout)
  edges : List EdgeLayout
  width : Frac
  height : Frac
  direction : String

/-- renderer.getResourceTypePriority. -/
def getResourceTypePriority : ResourceType → Nat
  | .network => 1
  | .security => 2
  | .dns => 3
  | .certificate => 4
  | .loadBalancer => 5
  | .compute => 6
  | .container => 7
  | .database => 8
  | .storage => 9
  | .cdn => 10
  | .secret => 11
  | .unknown => 99

/-- The sort.Slice comparator of groupByResourceType: priority, then
name. -/
def nodeOrderLt (a b : String × GNode) : Bool :=
  if a.2.resourceType ≠ b.2.resourceType then
    getResourceTypePriority a.2.resourceType <
      getResourceTypePriority b.2.resourceType
  else strLt a.2.name b.2.name

/-- Deterministic model of Go sort.Slice with a less comparator: stable
insertion sort on the reflexive closure (Go pdqsort is deterministic but
unspecified on ties; the claims below never depend on which deterministic
tie order is chosen). -/
def sortByLt {α : Type} (lt : α → α → Bool) (l : List α) : List α :=
  List.insertionSort (fun a b => (!(lt b a)) = true) l

/-- renderer.groupByResourceType: keep ids found in the node map, sort by
category priority then name. -/
def groupByResourceType (g : Graph) (nodeIDs : List String) : List String :=
  let withNodes := nodeIDs.filterMap
    (fun id => (lookupKey g.nodes id).map (fun nd => (id, nd)))
  (sortByLt nodeOrderLt withNodes).map Prod.fst

/-- In-degree of a node over the full edge list. -/
def inDeg (g : Graph) (id : String) : Nat :=
  (g.edges.filter (fun e => e.toN.id = id)).length

/-- Children of a node (targets of its out-edges, in edge order). -/
def outEdgesIds (g : Graph) (id : String) : List String :=
  (g.edges.filter (fun e => e.fromN.id = id)).map GEdge.toN |>.map GNode.id

/-- Parents of a node (sources of its in-edges, in edge order). -/
def inEdgesIds (g : Graph) (id : String) : List String :=
  (g.edges.filter (fun e => e.toN.id = id)).map GEdge.fromN |>.map GNode.id

/-- Number of keys of the `Nodes` map. -/
def mapSize (g : Graph) : Nat := (keysOf g.nodes).dedup.length

/-- Add to the `processed` set. -/
def markProcessed (processed : List String) (id : String) : List String :=
  if processed.contains id then processed else processed ++ [id]

/-- Next-layer computation of assignLayersWithGrouping: children of the
current layer all of whose parents are processed, deduplicated by the
`seen` set, in traversal order. -/
def buildNextLayer (g : Graph) (processed currentLayer : List String) :
    List String :=
  (currentLayer.foldl
    (fun (st : List String × List String) id =>
      (outEdgesIds g id).foldl
        (fun st' childID =>
          if !(st'.2.contains childID) ∧ !(processed.contains childID) ∧
              (inEdgesIds g childID).all (fun p => processed.contains p) then
            (st'.1 ++ [childID], st'.2 ++ [childID])
          else st')
        st)
    ([], [])).1

/-- The BFS loop of assignLayersWithGrouping.  `fuel` counts the remaining
admissible values of `layerIdx` (the Go bound is `layerIdx < 20`); the loop
also stops once every node is processed.  When the current layer is empty
the loop picks the first unprocessed node in enumeration order. -/
def layersLoop (g : Graph) (order : List String) :
    Nat → List String → List String → List (List String) →
    List (List String)
  | 0, _, _, acc => acc
  | fuel + 1, processed, currentLayer, acc =>
      if processed.length < mapSize g then
        let cl :=
          if currentLayer.isEmpty then
            match order.find?
                (fun id => (lookupKey g.nodes id).isSome ∧
                  !(processed.contains id)) with
            | some id => [id]
            | none => []
          else currentLayer
        let grouped := groupByResourceType g cl
        let processed' := grouped.foldl markProcessed processed
        layersLoop g order fuel processed' (buildNextLayer g processed' cl)
          (acc ++ [grouped])
      else acc

/-- renderer.assignLayersWithGrouping: roots (in-degree 0, in enumeration
order), else up to three Security/Network nodes, else an arbitrary (first
enumerated) node; then the bounded BFS loop. -/
def assignLayersWithGrouping (g : Graph) (order : List String) :
    List (List String) :=
  let roots := order.filter
    (fun id => (lookupKey g.nodes id).isSome && inDeg g id == 0)
  let seed :=
    if roots.isEmpty then
      let secNet := (order.filter
        (fun id =>
          match lookupKey g.nodes id with
          | some nd => nd.resourceType == ResourceType.security ||
              nd.resourceType == ResourceType.network
          | none => false)).take 3
      if secNet.isEmpty then
        match order.find? (fun id => (lookupKey g.nodes id).isSome) with
        | some id => [id]
        | none => []
      else secNet
    else roots
  layersLoop g order 20 [] seed []

/-- First index of an id in a layer (the Go scan with break). -/
def firstIdxOf (id : String) : List String → Option Nat
  | [] => none
  | x :: xs =>
      if x = id then some 0 else (firstIdxOf id xs).map (· + 1)

/-- renderer.reorderLayerByBarycenter: each node of the layer gets the mean
first-index of its neighbours in the adjacent layer (its own index when it
has none), and the layer is re-sorted by that value. -/
def reorderLayerByBarycenter (layers : List (List String)) (layerIdx : Nat)
    (g : Graph) (forward : Bool) : List (List String) :=
  if layerIdx ≥ layers.length then layers
  else if forward ∧ layerIdx = 0 then layers
  else if !forward ∧ layerIdx = layers.length - 1 then layers
  else
    let layer := layers.getD layerIdx []
    let adjacentLayer :=
      if forward then layers.getD (layerIdx - 1) []
      else layers.getD (layerIdx + 1) []
    let positions := layer.enum.map
      (fun iv =>
        let nodeID := iv.2
        let acc := g.edges.foldl
          (fun (st : Frac × Nat) e =>
            let connected? : Option String :=
              if forward ∧ e.toN.id = nodeID then some e.fromN.id
              else if !forward ∧ e.fromN.id = nodeID then some e.toN.id
              else none
            match connected? with
            | some cid =>
                match firstIdxOf cid adjacentLayer with
                | some pos => (st.1 + Frac.ofInt pos, st.2 + 1)
                | none => st
            | none => st)
          (0, 0)
        if 0 < acc.2 then (nodeID, acc.1 / Frac.ofInt acc.2)
        else (nodeID, Frac.ofInt iv.1))
    let sorted := sortByLt (fun a b => Frac.blt a.2 b.2) positions
    layers.set layerIdx (sorted.map Prod.fst)

/-- renderer.minimizeCrossings: three sweeps of a forward pass (layers
1..last against the layer above) and a backward pass (layers last-1..0
against the layer below). -/
def minimizeCrossings (layers : List (List String)) (g : Graph) :
    List (List String) :=
  (List.range 3).foldl
    (fun ls _ =>
      let fwd := (List.range' 1 (ls.length - 1)).foldl
        (fun l i => reorderLayerByBarycenter l i g true) ls
      ((List.range (fwd.length - 1)).reverse).foldl
        (fun l i => reorderLayerByBarycenter l i g false) fwd)
    layers

/-- renderer.assignCoordinatesWithSpacing: centred cross-axis offsets per
layer, main-axis coordinate from the layer index (reversed for BT/RL), and
the Width/Height fold.  Returns the node-layout map (insertion order:
layer by layer) and (Width, Height). -/
def assignCoordinatesWithSpacing (layers : List (List String))
    (direction : String) (nodeWidth nodeHeight hSpacing vSpacing : Frac) :
    List (String × NodeLayout) × Frac × Frac :=
  let maxNodesInLayer := layers.foldl (fun m l => max m l.length) 0
  let assoc := layers.enum.foldl
    (fun acc li =>
      let layerIdx := li.1
      let layer := li.2
      let layerWidth := Frac.ofInt ((layer.length : Int) - 1) * hSpacing +
        Frac.ofInt (layer.length : Int) * nodeWidth
      let startOffset := (Frac.ofInt (maxNodesInLayer : Int) * nodeWidth +
        Frac.ofInt ((maxNodesInLayer : Int) - 1) * hSpacing - layerWidth) /
        (2 : Frac)
      layer.enum.foldl
        (fun acc' ni =>
          let nodeIdx := ni.1
          let nodeID := ni.2
          let mainF := Frac.ofInt (layerIdx : Int)
          let revF := Frac.ofInt ((layers.length : Int) - 1 - layerIdx)
          let crossF := startOffset +
            Frac.ofInt (nodeIdx : Int) * (nodeWidth + hSpacing)
          let crossFV := startOffset +
            Frac.ofInt (nodeIdx : Int) * (nodeHeight + vSpacing)
          let p : Point :=
            if direction = "TB" then
              ⟨crossF, mainF * (nodeHeight + vSpacing)⟩
            else if direction = "BT" then
              ⟨crossF, revF * (nodeHeight + vSpacing)⟩
            else if direction = "LR" then
              ⟨mainF * (nodeWidth + hSpacing), crossFV⟩
            else if direction = "RL" then
              ⟨revF * (nodeWidth + hSpacing), crossFV⟩
            else
              ⟨crossF, mainF * (nodeHeight + vSpacing)⟩
          putKey acc' nodeID ⟨nodeWidth, nodeHeight, layerIdx, p⟩)
        acc)
    []
  let maxX := assoc.foldl
    (fun m kn =>
      if Frac.blt m (kn.2.position.x + kn.2.width) then
        kn.2.position.x + kn.2.width
      else m)
    (0 : Frac)
  let maxY := assoc.foldl
    (fun m kn =>
      if Frac.blt m (kn.2.position.y + kn.2.height) then
        kn.2.position.y + kn.2.height
      else m)
    (0 : Frac)
  (assoc, maxX + hSpacing, maxY + vSpacing)

/-- renderer.nodesOverlap: bounding boxes not separated by the 10-unit
margin on either axis. -/
def nodesOverlap (n1 n2 : NodeLayout) : Bool :=
  !(Frac.blt (n1.position.x + n1.width + (10 : Frac)) n2.position.x ||
    Frac.blt (n2.position.x + n2.width + (10 : Frac)) n1.position.x ||
    Frac.blt (n1.position.y + n1.height + (10 : Frac)) n2.position.y ||
    Frac.blt (n2.position.y + n2.height + (10 : Frac)) n1.position.y)

/-- renderer.separateNodes: push `n2` away from `n1` along the vector
between positions, normalised by the (clamped) distance, scaled by the
increment. -/
def separateNodes (sqrtF : Frac → Frac) (n1 n2 : NodeLayout)
    (distance : Frac) : NodeLayout :=
  let dx := n2.position.x - n1.position.x
  let dy := n2.position.y - n1.position.y
  let dist0 := sqrtF (dx * dx + dy * dy)
  let dist := if Frac.blt dist0 (1 : Frac) then (1 : Frac) else dist0
  let dxn := dx / dist
  let dyn := dy / dist
  { n2 with position := ⟨n2.position.x + dxn * distance,
      n2.position.y + dyn * distance⟩ }

/-- The single corrective double loop of resolveOverlaps, acting on the
value list in map order: for i < j, if the pair overlaps, node j is moved
by separateNodes (later checks see the updated positions). -/
def overlapPass (sqrtF : Frac → Frac) (inc : Frac)
    (arr : List NodeLayout) : List NodeLayout :=
  (List.range arr.length).foldl
    (fun a i =>
      (List.range a.length).foldl
        (fun a' j =>
          if i < j then
            match a'.get? i, a'.get? j with
            | some ni, some nj =>
                if nodesOverlap ni nj then
                  a'.set j (separateNodes sqrtF ni nj inc)
                else a'
            | _, _ => a'
          else a')
        a)
    arr

/-- renderer.resolveOverlaps: one corrective pass over all pairs, pushing
by nodeWidth * 0.2 (nodeHeight is accepted but unused, as in the
source). -/
def resolveOverlaps (sqrtF : Frac → Frac) (nodeWidth _nodeHeight : Frac)
    (assoc : List (String × NodeLayout)) : List (String × NodeLayout) :=
  let vals := assoc.map Prod.snd
  let out := overlapPass sqrtF (nodeWidth * ⟨1, 5⟩) vals
  (assoc.map Prod.fst).zip out

/-- Trigonometric functions used only by the default (non TB/BT/LR/RL)
branch of connection-point selection; taken as parameters since they are
not algebraic.  No claim depends on their values. -/
structure TrigFns where
  atan2F : Frac → Frac → Frac
  cosF : Frac → Frac
  sinF : Frac → Frac

/-- renderer.getConnectionPointsWithOffset: boundary anchors with a 10-unit
arrow clearance, a connection offset on the target, chosen by direction and
relative position. -/
def getConnectionPointsWithOffset (trig : TrigFns) (direction : String)
    (fromN toN : NodeLayout) (connectionOffset : Frac) : Point × Point :=
  let fromCenter : Point := ⟨fromN.position.x + fromN.width / 2,
    fromN.position.y + fromN.height / 2⟩
  let toCenter : Point := ⟨toN.position.x + toN.width / 2,
    toN.position.y + toN.height / 2⟩
  let angle := trig.atan2F (toCenter.y - fromCenter.y)
    (toCenter.x - fromCenter.x)
  let arrowClearance : Frac := 10
  if direction = "TB" ∨ direction = "BT" then
    if Frac.blt (fromN.position.y + fromN.height) toN.position.y then
      (⟨fromCenter.x, fromN.position.y + fromN.height⟩,
       ⟨toCenter.x + connectionOffset, toN.position.y - arrowClearance⟩)
    else if Frac.blt (toN.position.y + toN.height) fromN.position.y then
      (⟨fromCenter.x, fromN.position.y⟩,
       ⟨toCenter.x + connectionOffset,
        toN.position.y + toN.height + arrowClearance⟩)
    else if Frac.blt fromCenter.x toCenter.x then
      (⟨fromN.position.x + fromN.width, fromCenter.y⟩,
       ⟨toN.position.x - arrowClearance, toCenter.y⟩)
    else
      (⟨fromN.position.x, fromCenter.y⟩,
       ⟨toN.position.x + toN.width + arrowClearance, toCenter.y⟩)
  else if direction = "LR" ∨ direction = "RL" then
    if Frac.blt (fromN.position.x + fromN.width) toN.position.x then
      (⟨fromN.position.x + fromN.width, fromCenter.y⟩,
       ⟨toN.position.x - arrowClearance, toCenter.y + connectionOffset⟩)
    else if Frac.blt (toN.position.x + toN.width) fromN.position.x then
      (⟨fromN.position.x, fromCenter.y⟩,
       ⟨toN.position.x + toN.width + arrowClearance,
        toCenter.y + connectionOffset⟩)
    else if Frac.blt fromCenter.y toCenter.y then
      (⟨fromCenter.x, fromN.position.y + fromN.height⟩,
       ⟨toCenter.x + connectionOffset, toN.position.y - arrowClearance⟩)
    else
      (⟨fromCenter.x, fromN.position.y⟩,
       ⟨toCenter.x + connectionOffset,
        toN.position.y + toN.height + arrowClearance⟩)
  else
    let radiusFrom := Frac.fmin fromN.width fromN.height / 2 + arrowClearance
    let radiusTo := Frac.fmin toN.width toN.height / 2 + arrowClearance
    (⟨fromCenter.x + radiusFrom * trig.cosF angle,
      fromCenter.y + radiusFrom * trig.sinF angle⟩,
     ⟨toCenter.x - radiusTo * trig.cosF angle,
      toCenter.y - radiusTo * trig.sinF angle⟩)

/-- renderer.routeStraightWithOffset: two points, or a three-point path
through a perpendicular-offset midpoint for a nonzero offset. -/
def routeStraightWithOffset (sqrtF : Frac → Frac) (ps pe : Point)
    (offset : Frac) : List Point :=
  if Frac.eqv offset 0 then [ps, pe]
  else
    let dx := pe.x - ps.x
    let dy := pe.y - ps.y
    let length := sqrtF (dx * dx + dy * dy)
    if Frac.blt length ⟨1, 10⟩ then [ps, pe]
    else
      let perpX := (Frac.neg dy) / length * offset
      let perpY := dx / length * offset
      let mid : Point := ⟨(ps.x + pe.x) / 2, (ps.y + pe.y) / 2⟩
      [ps, ⟨mid.x + perpX, mid.y + perpY⟩, pe]

/-- renderer.routeOrthogonal: right-angle path through the mid main-axis
(4 points for the four named directions, 3 for the default). -/
def routeOrthogonal (direction : String) (ps pe : Point) (offset : Frac) :
    List Point :=
  if direction = "TB" ∨ direction = "BT" then
    let midY := (ps.y + pe.y) / 2
    [ps, ⟨ps.x, midY⟩, ⟨pe.x + offset, midY⟩, ⟨pe.x, pe.y⟩]
  else if direction = "LR" ∨ direction = "RL" then
    let midX := (ps.x + pe.x) / 2
    [ps, ⟨midX, ps.y⟩, ⟨midX, pe.y + offset⟩, ⟨pe.x, pe.y⟩]
  else
    [ps, ⟨pe.x, ps.y⟩, pe]

/-- renderer.cubicBezier: one point of the cubic Bezier curve. -/
def cubicBezier (p0 p1 p2 p3 : Point) (t : Frac) : Point :=
  let t2 := t * t
  let t3 := t2 * t
  let mt := (1 : Frac) - t
  let mt2 := mt * mt
  let mt3 := mt2 * mt
  ⟨mt3 * p0.x + 3 * mt2 * t * p1.x + 3 * mt * t2 * p2.x + t3 * p3.x,
   mt3 * p0.y + 3 * mt2 * t * p1.y + 3 * mt * t2 * p2.y + t3 * p3.y⟩

/-- renderer.cubicBezierPoints: the endpoints and steps-1 sampled interior
points. -/
def cubicBezierPoints (p0 p1 p2 p3 : Point) (steps : Nat) : List Point :=
  p0 :: ((List.range' 1 (steps - 1)).map
    (fun i => cubicBezier p0 p1 p2 p3
      (Frac.ofInt (i : Int) / Frac.ofInt (steps : Int)))) ++ [p3]

/-- renderer.generateBezierCurve: straight 2-point line under distance 100,
else a 26-point sampled cubic with direction-dependent control points. -/
def generateBezierCurve (sqrtF : Frac → Frac) (direction : String)
    (ps pe : Point) : List Point :=
  let dx := pe.x - ps.x
  let dy := pe.y - ps.y
  let distance := sqrtF (dx * dx + dy * dy)
  if Frac.blt distance 100 then [ps, pe]
  else
    if direction = "TB" ∨ direction = "BT" then
      let curveStrength := Frac.fmin (dy.abs * ⟨2, 5⟩) 100
      cubicBezierPoints ps ⟨ps.x, ps.y + curveStrength⟩
        ⟨pe.x, pe.y - curveStrength⟩ pe 25
    else if direction = "LR" ∨ direction = "RL" then
      let curveStrength := Frac.fmin (dx.abs * ⟨2, 5⟩) 100
      cubicBezierPoints ps ⟨ps.x + curveStrength, ps.y⟩
        ⟨pe.x - curveStrength, pe.y⟩ pe 25
    else
      let curveStrength := Frac.fmin (dy.abs * ⟨2, 5⟩) 80
      cubicBezierPoints ps ⟨ps.x, ps.y + curveStrength⟩
        ⟨pe.x, pe.y - curveStrength⟩ pe 25

/-- renderer.routeCurvedWithOffset: the standard Bezier for a zero offset,
else a perpendicular-offset 26-point cubic. -/
def routeCurvedWithOffset (sqrtF : Frac → Frac) (direction : String)
    (ps pe : Point) (offset : Frac) : List Point :=
  if Frac.eqv offset 0 then generateBezierCurve sqrtF direction ps pe
  else
    let dx := pe.x - ps.x
    let dy := pe.y - ps.y
    let length := sqrtF (dx * dx + dy * dy)
    if Frac.blt length ⟨1, 10⟩ then [ps, pe]
    else
      let perpX := (Frac.neg dy) / length * offset
      let perpY := dx / length * offset
      if direction = "TB" ∨ direction = "BT" then
        let curveStrength := Frac.fmin (dy.abs * ⟨2, 5⟩) 100
        cubicBezierPoints ps ⟨ps.x + perpX, ps.y + curveStrength⟩
          ⟨pe.x + perpX, pe.y - curveStrength⟩ pe 25
      else if direction = "LR" ∨ direction = "RL" then
        let curveStrength := Frac.fmin (dx.abs * ⟨2, 5⟩) 100
        cubicBezierPoints ps ⟨ps.x + curveStrength, ps.y + perpY⟩
          ⟨pe.x - curveStrength, pe.y + perpY⟩ pe 25
      else
        let curveStrength := Frac.fmin (length * ⟨3, 10⟩) 80
        cubicBezierPoints ps ⟨ps.x, ps.y + curveStrength⟩
          ⟨pe.x, pe.y - curveStrength⟩ pe 25

/-- renderer.findAvoidanceWaypoint: midpoint pushed 80 units to the side
chosen by direction and relative position. -/
def findAvoidanceWaypoint (direction : String) (ps pe : Point) : Point :=
  let midX := (ps.x + pe.x) / 2
  let midY := (ps.y + pe.y) / 2
  let sideOffset : Frac := 80
  if direction = "TB" ∨ direction = "BT" then
    if Frac.blt ps.x pe.x then ⟨midX + sideOffset, midY⟩
    else ⟨midX - sideOffset, midY⟩
  else if direction = "LR" ∨ direction = "RL" then
    if Frac.blt ps.y pe.y then ⟨midX, midY + sideOffset⟩
    else ⟨midX, midY - sideOffset⟩
  else ⟨midX + sideOffset, midY⟩

/-- renderer.routeCurvedAvoidance: two curves through the avoidance
waypoint, concatenated without repeating the waypoint. -/
def routeCurvedAvoidance (sqrtF : Frac → Frac) (direction : String)
    (ps pe : Point) (offset : Frac) : List Point :=
  let waypoint := findAvoidanceWaypoint direction ps pe
  let curve1 := routeCurvedWithOffset sqrtF direction ps waypoint offset
  let curve2 := routeCurvedWithOffset sqrtF direction waypoint pe offset
  curve1 ++ curve2.drop 1

/-- renderer.lineIntersectsRect: bounding-box rejection, then a slab test.
Go computes the slab parameters with float division (±Inf on axis-parallel
segments); the embedding's division by zero yields 0, a deviation confined
to axis-parallel boundary cases no claim below depends on. -/
def lineIntersectsRect (p1 p2 : Point) (x1 y1 x2 y2 : Frac) : Bool :=
  let minX := Frac.fmin p1.x p2.x
  let maxX := if Frac.blt p1.x p2.x then p2.x else p1.x
  let minY := Frac.fmin p1.y p2.y
  let maxY := if Frac.blt p1.y p2.y then p2.y else p1.y
  if Frac.blt maxX x1 || Frac.blt x2 minX || Frac.blt maxY y1 ||
      Frac.blt y2 minY then false
  else
    let dx := p2.x - p1.x
    let dy := p2.y - p1.y
    if Frac.eqv dx 0 && Frac.eqv dy 0 then
      Frac.ble x1 p1.x && Frac.ble p1.x x2 && Frac.ble y1 p1.y &&
        Frac.ble p1.y y2
    else
      let t1 := (x1 - p1.x) / dx
      let t2 := (x2 - p1.x) / dx
      let t3 := (y1 - p1.y) / dy
      let t4 := (y2 - p1.y) / dy
      let tmin :=
        let a := Frac.fmin t1 t2
        let b := Frac.fmin t3 t4
        if Frac.blt a b then b else a
      let tmax :=
        let a := if Frac.blt t1 t2 then t2 else t1
        let b := if Frac.blt t3 t4 then t4 else t3
        Frac.fmin a b
      Frac.ble tmin tmax && Frac.ble 0 tmax && Frac.ble tmin 1

/-- renderer.wouldIntersectNodes: does the segment hit the 20-unit expanded
box of any node other than the two endpoints (pointer comparison embedded
as key comparison, keys being unique)? -/
def wouldIntersectNodes (layoutNodes : List (String × NodeLayout))
    (ps pe : Point) (fromId toId : String) : Bool :=
  layoutNodes.any
    (fun kn =>
      kn.1 ≠ fromId ∧ kn.1 ≠ toId ∧
      lineIntersectsRect ps pe (kn.2.position.x - 20)
        (kn.2.position.y - 20) (kn.2.position.x + kn.2.width + 20)
        (kn.2.position.y + kn.2.height + 20))

/-- renderer.routeEdgeWithConnection: anchors, then in order - close
endpoints get a straight line, same-layer endpoints an orthogonal route,
obstructed straight connectors an avoidance route, all others a curve. -/
def routeEdgeWithConnection (sqrtF : Frac → Frac) (trig : TrigFns)
    (layoutNodes : List (String × NodeLayout)) (direction : String)
    (fromN toN : NodeLayout) (fromId toId : String)
    (pathOffset connectionOffset : Frac) : List Point :=
  let pts := getConnectionPointsWithOffset trig direction fromN toN
    connectionOffset
  let ps := pts.1
  let pe := pts.2
  let dx := pe.x - ps.x
  let dy := pe.y - ps.y
  let distance := sqrtF (dx * dx + dy * dy)
  if Frac.blt distance 50 then routeStraightWithOffset sqrtF ps pe pathOffset
  else if fromN.layer = toN.layer then
    routeOrthogonal direction ps pe pathOffset
  else if wouldIntersectNodes layoutNodes ps pe fromId toId then
    routeCurvedAvoidance sqrtF direction ps pe pathOffset
  else routeCurvedWithOffset sqrtF direction ps pe pathOffset

/-- First index of an edge index in a target group (the Go scan with
break). -/
def firstIdxNat (x : Nat) : List Nat → Option Nat
  | [] => none
  | y :: ys =>
      if y = x then some 0 else (firstIdxNat x ys).map (· + 1)

/-- renderer.identifyParallelEdges: group edges by unordered node pair,
skipping ordered pairs already seen, and keep the first edge of each group
with offset 0.  Edges are identified by their index in `Graph.Edges`
(embedding Go pointer identity). -/
def identifyParallelEdges (g : Graph) : List (Nat × Frac) :=
  let grouped := g.edges.enum.foldl
    (fun (st : List String × List (String × List Nat)) ie =>
      let e := ie.2
      let key :=
        if strLt e.fromN.id e.toN.id then e.fromN.id ++ "-" ++ e.toN.id
        else e.toN.id ++ "-" ++ e.fromN.id
      let edgeKey := e.fromN.id ++ "-" ++ e.toN.id
      if st.1.contains edgeKey then st
      else
        (st.1 ++ [edgeKey],
         match lookupKey st.2 key with
         | some idxs => putKey st.2 key (idxs ++ [ie.1])
         | none => st.2 ++ [(key, [ie.1])])
    )
    ([], [])
  grouped.2.foldl
    (fun acc kv =>
      match kv.2 with
      | [] => acc
      | i :: _ => acc ++ [(i, (0 : Frac))])
    []

/-- renderer.RouteEdges: identify parallel edges, group edges by target,
then route every edge whose two endpoint layouts exist (others are
skipped), in `Graph.Edges` order, spreading connection points 30 units
apart centred on the target when several edges share it. -/
def RouteEdges (sqrtF : Frac → Frac) (trig : TrigFns)
    (layoutNodes : List (String × NodeLayout)) (direction : String)
    (g : Graph) : List EdgeLayout :=
  let routes := identifyParallelEdges g
  let edgesByTarget := g.edges.enum.foldl
    (fun (m : List (String × List Nat)) ie =>
      match lookupKey m ie.2.toN.id with
      | some idxs => putKey m ie.2.toN.id (idxs ++ [ie.1])
      | none => m ++ [(ie.2.toN.id, [ie.1])])
    []
  g.edges.enum.foldl
    (fun acc ie =>
      let idx := ie.1
      let edge := ie.2
      match lookupKey layoutNodes edge.fromN.id,
            lookupKey layoutNodes edge.toN.id with
      | some fromNode, some toNode =>
          let offset : Frac :=
            match routes.find? (fun r => r.1 = idx) with
            | some r => r.2
            | none => 0
          let targetIdxs := (lookupKey edgesByTarget edge.toN.id).getD []
          let connectionOffset : Frac :=
            if 1 < targetIdxs.length then
              match firstIdxNat idx targetIdxs with
              | some edgeIndex =>
                  Frac.ofInt (edgeIndex : Int) * 30 -
                    (Frac.ofInt ((targetIdxs.length : Int) - 1) * 30) / 2
              | none => 0
            else 0
          acc ++ [⟨edge, routeEdgeWithConnection sqrtF trig layoutNodes
            direction fromNode toNode edge.fromN.id edge.toN.id offset
            connectionOffset⟩]
      | _, _ => acc)
    []

/-- renderer.CalculateImprovedLayout: spacing enhancement, empty-graph
short-circuit, layering, crossing minimisation, coordinates, overlap
resolution, edge routing.  `order` is the Nodes-map enumeration order (see
the module comment). -/
def CalculateImprovedLayout (sqrtF : Frac → Frac) (trig : TrigFns)
    (g : Graph) (order : List String) (direction : String)
    (nodeWidth nodeHeight hSpacing vSpacing : Frac) : Layout :=
  let enhancedHSpacing := hSpacing * ⟨3, 2⟩
  let enhancedVSpacing := vSpacing * ⟨3, 2⟩
  if g.nodes.isEmpty then ⟨[], [], 0, 0, direction⟩
  else
    let layers := assignLayersWithGrouping g order
    let layers2 := minimizeCrossings layers g
    let cw := assignCoordinatesWithSpacing layers2 direction nodeWidth
      nodeHeight enhancedHSpacing enhancedVSpacing
    let assoc2 := resolveOverlaps sqrtF nodeWidth nodeHeight cw.1
    { nodes := assoc2,
      edges := RouteEdges sqrtF trig assoc2 direction g,
      width := cw.2.1,
      height := cw.2.2,
      direction := direction }

/-- Ordered pairs of edge endpoint ids (the duplicate-edge invariant is
about this list). -/
def edgePairs (g : Graph) : List (String × String) :=
  g.edges.map (fun e => (e.fromN.id, e.toN.id))

/-- Modelled from the spec (claim C6 wording): the fixed precedence table
on category pairs, first matching rule winning. -/
def specRelationship (a b : ResourceType) : String :=
  if a = .security ∧ b = .compute then "protects"
  else if a = .security ∧ b = .loadBalancer then "filters"
  else if a = .loadBalancer ∧ b = .compute then "routes_to"
  else if a = .network then "contains"
  else if a = .compute ∧ b = .storage then "uses_storage"
  else if a = .compute ∧ b = .database then "connects_to_db"
  else "depends_on"

/-- Modelled from the spec (claim C9 wording): retain a resource iff its
type is not deny-listed and is not a generic association/attachment helper
type, except load-balancer associations. -/
def specShouldInclude (r : Resource) : Bool :=
  let lower := strToLower r.rtype
  !(excludedTypes.contains r.rtype) &&
    !((strContains lower "association" || strContains lower "attachment") &&
      !(strContains lower "load_balancer"))

/-- Trig instantiation for concrete evaluations (only the default direction
branch could consult it; the evaluations below never do). -/
def dummyTrig : TrigFns := ⟨fun _ _ => 0, fun _ => 0, fun _ => 0⟩

/-- Node fixture constructor. -/
def mkGNode (id name : String) (rt : ResourceType) : GNode :=
  ⟨id, "", name, "", rt, []⟩

/-- Two-node graph with equal names and categories (a sorting tie). -/
def gTwo : Graph :=
  ⟨[("A", mkGNode "A" "x" .unknown), ("B", mkGNode "B" "x" .unknown)],
   [], []⟩

/-- The pipeline on `gTwo` under enumeration order A,B. -/
def layTwoAB : Layout :=
  CalculateImprovedLayout fracSqrt dummyTrig gTwo ["A", "B"] "TB"
    ⟨100, 1⟩ ⟨50, 1⟩ ⟨20, 1⟩ ⟨20, 1⟩

/-- The pipeline on `gTwo` under enumeration order B,A. -/
def layTwoBA : Layout :=
  CalculateImprovedLayout fracSqrt dummyTrig gTwo ["B", "A"] "TB"
    ⟨100, 1⟩ ⟨50, 1⟩ ⟨20, 1⟩ ⟨20, 1⟩

/-- The x coordinate of a node of a layout (0 when absent). -/
def nodeX (lay : Layout) (id : String) : Frac :=
  match lookupKey lay.nodes id with
  | some nl => nl.position.x
  | none => 0

/-- DigitalOcean load balancer resource whose droplet_ids cross-reference
the droplet below (no declared dependency). -/
def rLB : Resource :=
  ⟨"digitalocean_loadbalancer", "lb", "digitalocean",
   [("droplet_ids", .list [.str "d1"])], "lb1", []⟩

/-- DigitalOcean droplet resource carrying the id attribute d1. -/
def rDrop : Resource :=
  ⟨"digitalocean_droplet", "drop", "digitalocean",
   [("id", .str "d1")], "dr1", []⟩

/-- Resource list whose only edge is implicit. -/
def rsImplicit : List Resource := [rLB, rDrop]

/-- AWS vpc resource fixture. -/
def rVpc : Resource := ⟨"aws_vpc", "a", "aws", [], "A", []⟩

/-- AWS instance depending on the vpc. -/
def rInst : Resource := ⟨"aws_instance", "b", "aws", [], "B", ["A"]⟩

/-- An attachment-type helper resource (claim C9). -/
def rVolAtt : Resource :=
  ⟨"aws_volume_attachment", "att", "aws", [], "att1", []⟩

/-- Graph fixture that already contains the edge A→B. -/
def gIdem : Graph :=
  ⟨[("A", mkGNode "A" "a" .unknown), ("B", mkGNode "B" "b" .unknown)],
   [⟨mkGNode "A" "a" .unknown, mkGNode "B" "b" .unknown, "depends_on"⟩],
   []⟩

/-- 21 node ids for the layering-bound counterexample. -/
def chainIds : List String :=
  ["a", "b", "c", "d", "e", "f", "g", "h", "i", "j", "k", "l", "m", "n",
   "o", "p", "q", "r", "s", "t", "u"]

/-- The 21 chain nodes. -/
def chainNodes : List (String × GNode) :=
  chainIds.map (fun id => (id, mkGNode id id .unknown))

/-- The 20 chain edges a→b→...→u. -/
def chainEdges : List GEdge :=
  (chainIds.zip chainIds.tail).map
    (fun p => ⟨mkGNode p.1 p.1 .unknown, mkGNode p.2 p.2 .unknown,
      "depends_on"⟩)

/-- A 21-node dependency chain: its layering needs 21 layers, one more
than the bound. -/
def gChain : Graph := ⟨chainNodes, chainEdges, []⟩

/-- The pipeline on `gTwo` with zero configured spacing: the two layouts
overlap and the overlap pass moves node B after Width was computed. -/
def layZeroSpacing : Layout :=
  CalculateImprovedLayout fracSqrt dummyTrig gTwo ["A", "B"] "TB"
    ⟨100, 1⟩ ⟨50, 1⟩ 0 0

/-- Overlapping node-layout pair fixtures for the collision-resolution
counterexample. -/
def nOlA : NodeLayout := ⟨⟨100, 1⟩, ⟨50, 1⟩, 0, ⟨0, 0⟩⟩

/-- Second overlapping node, 20 units to the right. -/
def nOlB : NodeLayout := ⟨⟨100, 1⟩, ⟨50, 1⟩, 0, ⟨⟨20, 1⟩, 0⟩⟩

/-- Does a two-entry layout list still hold an overlapping pair? -/
def pairStillOverlaps (l : List (String × NodeLayout)) : Bool :=
  match l with
  | [(_, a), (_, b)] => nodesOverlap a b
  | _ => false

/-- Same-layer close node layouts for the edge-shape counterexample. -/
def nCloseFrom : NodeLayout := ⟨⟨20, 1⟩, ⟨20, 1⟩, 0, ⟨0, 0⟩⟩

/-- Same-layer target 60 units away (anchors 30 apart, below the 50-unit
threshold). -/
def nCloseTo : NodeLayout := ⟨⟨20, 1⟩, ⟨20, 1⟩, 0, ⟨⟨60, 1⟩, 0⟩⟩

/-- Node extents (position + size) on the x axis. -/
def extentsX (assoc : List (String × NodeLayout)) : List Frac :=
  assoc.map (fun kv => kv.2.position.x + kv.2.width)

/-- Node extents (position + size) on the y axis. -/
def extentsY (assoc : List (String × NodeLayout)) : List Frac :=
  assoc.map (fun kv => kv.2.position.y + kv.2.height)

/-- The maximum fold of the Width/Height computation. -/
def foldMax (l : List Frac) (init : Frac) : Frac :=
  l.foldl (fun m e => if Frac.blt m e then e else m) init

/-- Well-separated node layouts (no pair overlaps). -/
def nFarA : NodeLayout := ⟨⟨100, 1⟩, ⟨50, 1⟩, 0, ⟨0, 0⟩⟩

/-- Second well-separated node, 200 units to the right. -/
def nFarB : NodeLayout := ⟨⟨100, 1⟩, ⟨50, 1⟩, 0, ⟨⟨200, 1⟩, 0⟩⟩


/-- The graph well-formedness invariant of claim C2: no duplicate ordered
endpoint pair, edge endpoints present in the node map, map values carry
their key as id, and attribute-index values are node-map values. -/
def GoodGraph (g : Graph) : Prop :=
  (edgePairs g).Nodup ∧
  (∀ e ∈ g.edges, (lookupKey g.nodes e.fromN.id).isSome = true ∧
    (lookupKey g.nodes e.toN.id).isSome = true) ∧
  (∀ kv ∈ g.nodes, kv.2.id = kv.1) ∧
  (∀ ie ∈ g.attributeIndex, ∃ kv ∈ g.nodes, kv.2 = ie.2)


/-- Resource list with one explicit dependency, instance first (so the
dependency edge is added before the second phase-2 check). -/
def rsExplicit : List Resource := [rInst, rVpc]


/-- Modelled from the spec (claim C8 wording): the coordinate formula for
the cell at (layerIdx, nodeIdx) - cross-axis offset
(maxLayerWidth - thisLayerWidth)/2 plus nodeIdx spacing steps, main-axis
coordinate layerIdx * (size + spacing), reversed for BT/RL. -/
def specCellPoint (layers : List (List String)) (direction : String)
    (nodeWidth nodeHeight hSpacing vSpacing : Frac)
    (layerIdx nodeIdx : Nat) : Point :=
  let maxNodesInLayer := layers.foldl (fun m l => max m l.length) 0
  let layer := layers.getD layerIdx []
  let layerWidth := Frac.ofInt ((layer.length : Int) - 1) * hSpacing +
    Frac.ofInt (layer.length : Int) * nodeWidth
  let startOffset := (Frac.ofInt (maxNodesInLayer : Int) * nodeWidth +
    Frac.ofInt ((maxNodesInLayer : Int) - 1) * hSpacing - layerWidth) /
    (2 : Frac)
  let mainF := Frac.ofInt (layerIdx : Int)
  let revF := Frac.ofInt ((layers.length : Int) - 1 - layerIdx)
  let crossF := startOffset +
    Frac.ofInt (nodeIdx : Int) * (nodeWidth + hSpacing)
  let crossFV := startOffset +
    Frac.ofInt (nodeIdx : Int) * (nodeHeight + vSpacing)
  if direction = "TB" then ⟨crossF, mainF * (nodeHeight + vSpacing)⟩
  else if direction = "BT" then ⟨crossF, revF * (nodeHeight + vSpacing)⟩
  else if direction = "LR" then ⟨mainF * (nodeWidth + hSpacing), crossFV⟩
  else if direction = "RL" then ⟨revF * (nodeWidth + hSpacing), crossFV⟩
  else ⟨crossF, mainF * (nodeHeight + vSpacing)⟩


set_option maxRecDepth 10000

/-- Claim C6 (confirmed): inferRelationship is a pure function of the two
categories applying the fixed precedence table Security→Compute protects,
Security→LoadBalancer filters, LoadBalancer→Compute routes_to,
Network→any contains, Compute→Storage uses_storage, Compute→Database
connects_to_db, else depends_on, first matching rule winning. -/
theorem C6_inferRelationship_table :
    ∀ n1 n2 : GNode,
      inferRelationship n1 n2 = specRelationship n1.resourceType
        n2.resourceType := by
  intro n1 n2
  rfl

/-- Claim C3 counterexample: the same graph, parameters and direction under
two different Nodes-map enumeration orders (both enumerations of the same
key set, as Go's randomized map iteration may produce on two runs) give
node A different x positions, so identical input does not determine the
output. -/
theorem C3_counterexample :
    List.Perm ["A", "B"] ["B", "A"] ∧
      Frac.eqv (nodeX layTwoAB "A") (nodeX layTwoBA "A") = false := by
  constructor
  · decide
  · decide

/-- Claim C3 (corrected): the pipeline is deterministic only relative to
the Nodes-map enumeration order: two runs with identical input AND the
same enumeration order yield identical layouts (Go randomizes that order
between runs, so determinism as claimed fails; see the
counterexample). -/
theorem C3_pipeline_deterministic_given_order
    (sqrtF : Frac → Frac) (trig : TrigFns) (g : Graph) (dir : String)
    (w h hs vs : Frac) (o1 o2 : List String) (horder : o1 = o2) :
    CalculateImprovedLayout sqrtF trig g o1 dir w h hs vs =
      CalculateImprovedLayout sqrtF trig g o2 dir w h hs vs := by
  rw [horder]

/-- Witness for C3: the theorem applied to the concrete two-node run. -/
theorem C3_witness :
    CalculateImprovedLayout fracSqrt dummyTrig gTwo ["A", "B"] "TB"
        ⟨100, 1⟩ ⟨50, 1⟩ ⟨20, 1⟩ ⟨20, 1⟩ =
      CalculateImprovedLayout fracSqrt dummyTrig gTwo ["A", "B"] "TB"
        ⟨100, 1⟩ ⟨50, 1⟩ ⟨20, 1⟩ ⟨20, 1⟩ :=
  C3_pipeline_deterministic_given_order fracSqrt dummyTrig gTwo "TB"
    ⟨100, 1⟩ ⟨50, 1⟩ ⟨20, 1⟩ ⟨20, 1⟩ ["A", "B"] ["A", "B"] rfl

/-- Claim C5 counterexample: two nodes 20 units apart (boxes 100 wide)
still overlap after resolveOverlaps - the single pass moves the second
node by the fixed increment 0.2 * nodeWidth = 20, far less than needed, so
the claimed universal post-condition fails. -/
theorem C5_counterexample :
    nodesOverlap nOlA nOlB = true ∧
      pairStillOverlaps
        (resolveOverlaps fracSqrt ⟨100, 1⟩ ⟨50, 1⟩
          [("A", nOlA), ("B", nOlB)]) = true := by
  constructor
  · decide
  · decide

/-- Claim C5 (corrected): the single corrective pass pushes the second
node of each overlapping pair by the fixed increment but does not
guarantee separation (see the counterexample); what does hold is that the
pass is conservative: a layout in which no pair overlaps is returned
unchanged. -/
theorem C5_no_overlap_fixpoint (sqrtF : Frac → Frac) (w h : Frac)
    (assoc : List (String × NodeLayout))
    (hno : (assoc.map Prod.snd).Pairwise
      (fun a b => nodesOverlap a b = false)) :
    resolveOverlaps sqrtF w h assoc = assoc := by
  have hpair := (List.pairwise_iff_get.mp hno)
  have hpass : overlapPass sqrtF (w * ⟨1, 5⟩) (assoc.map Prod.snd) =
      assoc.map Prod.snd := by
    set arr := assoc.map Prod.snd with harr
    have step1 : ∀ (i : Nat) (js : List Nat),
        js.foldl
          (fun a' j =>
            if i < j then
              match a'.get? i, a'.get? j with
              | some ni, some nj =>
                  if nodesOverlap ni nj then
                    a'.set j (separateNodes sqrtF ni nj (w * ⟨1, 5⟩))
                  else a'
              | _, _ => a'
            else a')
          arr = arr := by
      intro i js
      induction js with
      | nil => rfl
      | cons j js ih =>
          simp only [List.foldl_cons]
          by_cases hij : i < j
          · rw [if_pos hij]
            cases hgi : arr.get? i with
            | none => simpa [hgi] using ih
            | some ni =>
                cases hgj : arr.get? j with
                | none => simpa [hgi, hgj] using ih
                | some nj =>
                    obtain ⟨hi', hni⟩ := List.get?_eq_some.mp hgi
                    obtain ⟨hj', hnj⟩ := List.get?_eq_some.mp hgj
                    have hover : nodesOverlap ni nj = false := by
                      have := hpair ⟨i, hi'⟩ ⟨j, hj'⟩ hij
                      rwa [hni, hnj] at this
                    simpa [hgi, hgj, hover] using ih
          · rw [if_neg hij]
            exact ih
    have step2 : ∀ (is : List Nat),
        is.foldl
          (fun a i =>
            (List.range a.length).foldl
              (fun a' j =>
                if i < j then
                  match a'.get? i, a'.get? j with
                  | some ni, some nj =>
                      if nodesOverlap ni nj then
                        a'.set j (separateNodes sqrtF ni nj (w * ⟨1, 5⟩))
                      else a'
                  | _, _ => a'
                else a')
              a)
          arr = arr := by
      intro is
      induction is with
      | nil => rfl
      | cons i is ih =>
          simp only [List.foldl_cons]
          rw [step1 i (List.range arr.length)]
          exact ih
    exact step2 (List.range arr.length)
  show ((assoc.map Prod.fst).zip
    (overlapPass sqrtF (w * ⟨1, 5⟩) (assoc.map Prod.snd))) = assoc
  rw [hpass]
  clear hpair hno hpass
  induction assoc with
  | nil => rfl
  | cons kv rest ih =>
      simpa [List.map_cons, List.zip_cons_cons] using ih

/-- Witness for C5: the no-overlap fixpoint theorem applied to a concrete
separated pair. -/
theorem C5_witness :
    resolveOverlaps fracSqrt ⟨100, 1⟩ ⟨50, 1⟩
        [("A", nFarA), ("B", nFarB)] = [("A", nFarA), ("B", nFarB)] :=
  C5_no_overlap_fixpoint fracSqrt ⟨100, 1⟩ ⟨50, 1⟩
    [("A", nFarA), ("B", nFarB)] (by decide)

/-- Claim C4 counterexample: two nodes in the same layer whose anchors are
30 units apart (below the 50-unit threshold) are routed as a plain 2-point
straight line, not orthogonally - the distance check precedes the
same-layer check, contradicting the claimed priority order and its "in
particular" sentence. -/
theorem C4_counterexample :
    nCloseFrom.layer = nCloseTo.layer ∧
      routeEdgeWithConnection fracSqrt dummyTrig [] "TB" nCloseFrom
          nCloseTo "A" "B" 0 0 =
        [⟨⟨20, 1⟩, ⟨20, 2⟩⟩, ⟨⟨50, 1⟩, ⟨20, 2⟩⟩] ∧
      routeEdgeWithConnection fracSqrt dummyTrig [] "TB" nCloseFrom
          nCloseTo "A" "B" 0 0 ≠
        routeOrthogonal "TB" ⟨⟨20, 1⟩, ⟨20, 2⟩⟩ ⟨⟨50, 1⟩, ⟨20, 2⟩⟩ 0 := by
  refine ⟨rfl, by decide, by decide⟩

/-- Claim C4 (corrected): the actual priority order of path-shape
selection is (1) anchors closer than the 50-unit threshold - a straight
line (even for same-layer endpoints); (2) else same layer - orthogonal;
(3) else obstructed straight connector - a two-curve detour via a side
waypoint; (4) else a sampled cubic Bezier curve. -/
theorem C4_routing_priority (sqrtF : Frac → Frac) (trig : TrigFns)
    (ln : List (String × NodeLayout)) (dir : String) (fN tN : NodeLayout)
    (fId tId : String) (pOff cOff : Frac) (ps pe : Point)
    (hp : getConnectionPointsWithOffset trig dir fN tN cOff = (ps, pe)) :
    (Frac.blt (sqrtF ((pe.x - ps.x) * (pe.x - ps.x) +
          (pe.y - ps.y) * (pe.y - ps.y))) 50 = true →
        routeEdgeWithConnection sqrtF trig ln dir fN tN fId tId pOff cOff =
          routeStraightWithOffset sqrtF ps pe pOff) ∧
    (Frac.blt (sqrtF ((pe.x - ps.x) * (pe.x - ps.x) +
          (pe.y - ps.y) * (pe.y - ps.y))) 50 = false →
        fN.layer = tN.layer →
        routeEdgeWithConnection sqrtF trig ln dir fN tN fId tId pOff cOff =
          routeOrthogonal dir ps pe pOff) ∧
    (Frac.blt (sqrtF ((pe.x - ps.x) * (pe.x - ps.x) +
          (pe.y - ps.y) * (pe.y - ps.y))) 50 = false →
        ¬ fN.layer = tN.layer →
        wouldIntersectNodes ln ps pe fId tId = true →
        routeEdgeWithConnection sqrtF trig ln dir fN tN fId tId pOff cOff =
          routeCurvedAvoidance sqrtF dir ps pe pOff) ∧
    (Frac.blt (sqrtF ((pe.x - ps.x) * (pe.x - ps.x) +
          (pe.y - ps.y) * (pe.y - ps.y))) 50 = false →
        ¬ fN.layer = tN.layer →
        wouldIntersectNodes ln ps pe fId tId = false →
        routeEdgeWithConnection sqrtF trig ln dir fN tN fId tId pOff cOff =
          routeCurvedWithOffset sqrtF dir ps pe pOff) := by
  refine ⟨?_, ?_, ?_, ?_⟩
  · intro hclose
    simp [routeEdgeWithConnection, hp, hclose]
  · intro hfar hlayer
    simp [routeEdgeWithConnection, hp, hfar, hlayer]
  · intro hfar hlayer hhit
    simp [routeEdgeWithConnection, hp, hfar, hhit, if_neg hlayer]
  · intro hfar hlayer hmiss
    simp [routeEdgeWithConnection, hp, hfar, hmiss, if_neg hlayer]

/-- Witness for C4: the priority theorem applied to the concrete
same-layer close pair selects the straight route. -/
theorem C4_witness :
    routeEdgeWithConnection fracSqrt dummyTrig [] "TB" nCloseFrom nCloseTo
        "A" "B" 0 0 =
      routeStraightWithOffset fracSqrt ⟨⟨20, 1⟩, ⟨20, 2⟩⟩
        ⟨⟨50, 1⟩, ⟨20, 2⟩⟩ 0 :=
  (C4_routing_priority fracSqrt dummyTrig [] "TB" nCloseFrom nCloseTo "A"
    "B" 0 0 ⟨⟨20, 1⟩, ⟨20, 2⟩⟩ ⟨⟨50, 1⟩, ⟨20, 2⟩⟩ (by decide)).1
    (by decide)

/-- Claim C7 counterexample: with two resources and cancellation becoming
visible only from check number 2n on (that is, after the last explicit-edge
check, before the implicit pass), BuildGraph still adds the implicit
routes_to edge, because no cancellation check guards the implicit phase;
neither resource declares any dependency. -/
theorem C7_counterexample :
    ((BuildGraph (2 * rsImplicit.length) rsImplicit).edges.map
        (fun e => (e.fromN.id, e.toN.id, e.relationship))) =
      [("lb1", "dr1", "routes_to")] ∧
      rsImplicit.all (fun r => r.deps.isEmpty) = true := by
  refine ⟨by decide, by decide⟩

/-- Claim C8 counterexample: with zero configured spacing the two layouts
of gTwo overlap; resolveOverlaps moves node B to x = 120 after Width was
already computed, so the final Width (200) is not the maximum node extent
(220) plus one (zero) spacing unit. -/
theorem C8_counterexample :
    Frac.eqv layZeroSpacing.width
        (foldMax (extentsX layZeroSpacing.nodes) 0 + 0) = false ∧
      Frac.eqv layZeroSpacing.width 200 = true ∧
      Frac.eqv (foldMax (extentsX layZeroSpacing.nodes) 0) 220 = true ∧
      Frac.eqv (nodeX layZeroSpacing "B") 120 = true := by
  refine ⟨by decide, by decide, by decide, by decide⟩

/-- Claim C9 counterexample: an attachment helper type
(aws_volume_attachment) is retained by the code, while the claimed
predicate ("not a generic association/attachment helper type") excludes
it - the code only filters types containing "_association". -/
theorem C9_counterexample :
    ShouldIncludeInDiagram rVolAtt = true ∧
      specShouldInclude rVolAtt = false := by
  refine ⟨by decide, by decide⟩

/-- Lookup succeeds exactly on present keys. -/
theorem lookupKey_isSome_iff {α : Type} (l : List (String × α)) (k : String) :
    (lookupKey l k).isSome = true ↔ k ∈ keysOf l := by
  induction l with
  | nil => simp [lookupKey, keysOf]
  | cons kv rest ih =>
      by_cases h : kv.1 = k
      · subst h
        simp [lookupKey, keysOf]
      · simp [lookupKey, keysOf, h, ih, Ne.symm h]

/-- Lookup returns a member entry. -/
theorem lookupKey_mem {α : Type} (l : List (String × α)) (k : String)
    (v : α) (h : lookupKey l k = some v) : (k, v) ∈ l := by
  induction l with
  | nil => simp [lookupKey] at h
  | cons kv rest ih =>
      by_cases hk : kv.1 = k
      · subst hk
        simp [lookupKey] at h
        simp [← h]
      · simp [lookupKey, hk] at h
        exact List.mem_cons_of_mem _ (ih h)

/-- Members are found (by the key of any entry holding them first;
membership of the key suffices for success). -/
theorem lookupKey_isSome_of_mem {α : Type} (l : List (String × α))
    (kv : String × α) (h : kv ∈ l) : (lookupKey l kv.1).isSome = true := by
  rw [lookupKey_isSome_iff]
  exact List.mem_map_of_mem Prod.fst h

/-- Insertion adds exactly the inserted key to the lookup domain. -/
theorem lookupKey_putKey_isSome_iff {α : Type} (l : List (String × α))
    (k j : String) (v : α) :
    (lookupKey (putKey l k v) j).isSome = true ↔
      j = k ∨ (lookupKey l j).isSome = true := by
  induction l with
  | nil =>
      by_cases h : k = j
      · subst h
        simp [putKey, lookupKey]
      · simp only [putKey, lookupKey, if_neg h, Option.isSome_none]
        constructor
        · intro hf; cases hf
        · rintro (hf | hf)
          · exact absurd hf.symm h
          · cases hf
  | cons kv rest ih =>
      by_cases hk : kv.1 = k
      · subst hk
        by_cases hj : kv.1 = j
        · subst hj
          simp [putKey, lookupKey]
        · simp only [putKey, if_pos rfl, lookupKey, if_neg hj]
          constructor
          · intro hf; exact Or.inr hf
          · rintro (hf | hf)
            · exact absurd hf.symm hj
            · exact hf
      · by_cases hj : kv.1 = j
        · subst hj
          simp [putKey, lookupKey, hk]
        · simp only [putKey, if_neg hk, lookupKey, if_neg hj]
          exact ih

/-- Entries of an insertion: the inserted pair or an old entry. -/
theorem putKey_mem {α : Type} (l : List (String × α)) (k : String) (v : α)
    (kv : String × α) (h : kv ∈ putKey l k v) : kv = (k, v) ∨ kv ∈ l := by
  induction l with
  | nil => simpa [putKey] using h
  | cons kv' rest ih =>
      by_cases hk : kv'.1 = k
      · simp [putKey, hk] at h
        rcases h with h | h
        · exact Or.inl h
        · exact Or.inr (List.mem_cons_of_mem _ h)
      · simp [putKey, hk] at h
        rcases h with h | h
        · exact Or.inr (by simp [h])
        · rcases ih h with h' | h'
          · exact Or.inl h'
          · exact Or.inr (List.mem_cons_of_mem _ h')

/-- addEdge unfolded. -/
theorem addEdge_spec (g : Graph) (a b : GNode) (rel : String) :
    addEdge g a b rel =
      if edgeExists g a b then g
      else { g with edges := g.edges ++ [⟨a, b, rel⟩] } := rfl

/-- addEdge never changes the node map. -/
theorem addEdge_nodes (g : Graph) (a b : GNode) (rel : String) :
    (addEdge g a b rel).nodes = g.nodes := by
  rw [addEdge_spec]
  split <;> rfl

/-- addEdge never changes the attribute index. -/
theorem addEdge_attributeIndex (g : Graph) (a b : GNode) (rel : String) :
    (addEdge g a b rel).attributeIndex = g.attributeIndex := by
  rw [addEdge_spec]
  split <;> rfl

/-- edgeExists decides membership of the ordered id pair. -/
theorem edgeExists_iff (g : Graph) (a b : GNode) :
    edgeExists g a b = true ↔ (a.id, b.id) ∈ edgePairs g := by
  unfold edgeExists edgePairs
  rw [List.any_eq_true]
  constructor
  · rintro ⟨e, he, hcond⟩
    simp only [Bool.and_eq_true, beq_iff_eq] at hcond
    have : (e.fromN.id, e.toN.id) = (a.id, b.id) := by
      rw [hcond.1, hcond.2]
    exact this ▸ List.mem_map_of_mem _ he
  · intro hmem
    rcases List.mem_map.mp hmem with ⟨e, he, heq⟩
    refine ⟨e, he, ?_⟩
    simp only [Bool.and_eq_true, beq_iff_eq]
    exact ⟨congrArg Prod.fst heq, congrArg Prod.snd heq⟩

/-- A generic fold-preservation principle for state-threading folds. -/
theorem foldl_pres {α β : Type} (Q : α → Prop) (P : β → Prop)
    (step : α → β → α)
    (hstep : ∀ a b, Q a → P b → Q (step a b)) :
    ∀ (l : List β) (a : α), Q a → (∀ b ∈ l, P b) → Q (l.foldl step a) := by
  intro l
  induction l with
  | nil => intro a ha _; exact ha
  | cons b rest ih =>
      intro a ha hP
      simp only [List.foldl_cons]
      exact ih (step a b) (hstep a b ha (hP b (List.mem_cons_self b rest)))
        (fun b' hb' => hP b' (List.mem_cons_of_mem _ hb'))

/-- addEdge preserves the graph invariant when both endpoint ids are
present. -/
theorem addEdge_good (g : Graph) (a b : GNode) (rel : String)
    (hg : GoodGraph g)
    (ha : (lookupKey g.nodes a.id).isSome = true)
    (hb : (lookupKey g.nodes b.id).isSome = true) :
    GoodGraph (addEdge g a b rel) := by
  rw [addEdge_spec]
  by_cases hex : edgeExists g a b = true
  · rw [if_pos hex]; exact hg
  · rw [if_neg hex]
    obtain ⟨h1, h2, h3, h4⟩ := hg
    refine ⟨?_, ?_, h3, h4⟩
    · unfold edgePairs at h1 ⊢
      simp only [List.map_append, List.map_cons, List.map_nil]
      refine List.Nodup.append h1 (List.nodup_singleton _) ?_
      intro x hx hx'
      simp only [List.mem_singleton] at hx'
      subst hx'
      exact hex ((edgeExists_iff g a b).mpr hx)
    · intro e he
      rcases List.mem_append.mp he with h | h
      · exact h2 e h
      · simp only [List.mem_singleton] at h
        subst h
        exact ⟨ha, hb⟩

/-- A node found by attribute value is present in the node map. -/
theorem findNode_isSome (g : Graph) (hg : GoodGraph g) (k v : String)
    (nd : GNode) (h : findNodeByAttributeValue g k v = some nd) :
    (lookupKey g.nodes nd.id).isSome = true := by
  obtain ⟨-, -, h3, h4⟩ := hg
  unfold findNodeByAttributeValue at h
  cases hidx : g.attributeIndex.find? (fun e => e.1 = (k, v)) with
  | some e =>
      rw [hidx] at h
      injection h with h'
      obtain ⟨kv, hkv, hkveq⟩ := h4 e (List.mem_of_find?_eq_some hidx)
      have hid : nd.id = kv.1 := by rw [← h', ← hkveq]; exact h3 kv hkv
      rw [hid]
      exact lookupKey_isSome_of_mem g.nodes kv hkv
  | none =>
      rw [hidx] at h
      cases hf : g.nodes.find?
          (fun kn => getAttributeString kn.2.attrs k == v) with
      | some kn =>
          rw [hf] at h
          injection h with h'
          have hkn := List.mem_of_find?_eq_some hf
          have hid : nd.id = kn.1 := by rw [← h']; exact h3 kn hkn
          rw [hid]
          exact lookupKey_isSome_of_mem g.nodes kn hkn
      | none => rw [hf] at h; cases h

/-- The azure implicit rule preserves the invariant and the node map. -/
theorem implicitAzureRule_pres (N : List (String × GNode)) (g : Graph)
    (nd : GNode) (hg : GoodGraph g ∧ g.nodes = N) :
    GoodGraph (implicitAzureRule g nd) ∧ (implicitAzureRule g nd).nodes = N
    := by
  unfold implicitAzureRule
  split
  · cases h1 : findNodeByAttributeValue g "id"
        (getAttributeString nd.attrs "subnet_id") with
    | none => simpa [h1] using hg
    | some subnetNode =>
        cases h2 : findNodeByAttributeValue g "id"
            (getAttributeString nd.attrs "network_security_group_id") with
        | none => simpa [h1, h2] using hg
        | some nsgNode =>
            simp only [h1, h2]
            refine ⟨addEdge_good g nsgNode subnetNode "protects" hg.1
              (findNode_isSome g hg.1 _ _ _ h2)
              (findNode_isSome g hg.1 _ _ _ h1), ?_⟩
            rw [addEdge_nodes]; exact hg.2
  · exact hg

/-- The aws implicit rule preserves the invariant and the node map. -/
theorem implicitAWSRule_pres (N : List (String × GNode)) (g : Graph)
    (nd : GNode) (hg : GoodGraph g ∧ g.nodes = N)
    (hnd : (lookupKey N nd.id).isSome = true) :
    GoodGraph (implicitAWSRule g nd) ∧ (implicitAWSRule g nd).nodes = N := by
  unfold implicitAWSRule
  split
  · refine foldl_pres (fun g' => GoodGraph g' ∧ g'.nodes = N)
      (fun _ => True) _ ?_ _ g hg (fun _ _ => trivial)
    intro g' sgID hg' _
    cases hf : findNodeByAttributeValue g' "id" sgID with
    | none => simpa [hf] using hg'
    | some sgNode =>
        simp only [hf]
        refine ⟨addEdge_good g' sgNode nd "protects" hg'.1
          (findNode_isSome g' hg'.1 _ _ _ hf) (by rw [hg'.2]; exact hnd),
          ?_⟩
        rw [addEdge_nodes]; exact hg'.2
  · exact hg

/-- The droplet implicit rule preserves the invariant and the node map. -/
theorem implicitDropletRule_pres (N : List (String × GNode)) (g : Graph)
    (nd : GNode) (hg : GoodGraph g ∧ g.nodes = N)
    (hnd : (lookupKey N nd.id).isSome = true) :
    GoodGraph (implicitDropletRule g nd) ∧
      (implicitDropletRule g nd).nodes = N := by
  unfold implicitDropletRule
  dsimp only
  split
  · split
    · refine foldl_pres (fun g' => GoodGraph g' ∧ g'.nodes = N)
        (fun kfw => kfw ∈ N) _ ?_ g.nodes g hg ?_
      · intro g' kfw hg' hkfw
        split
        · refine foldl_pres (fun g'' => GoodGraph g'' ∧ g''.nodes = N)
            (fun _ => True) _ ?_ _ g' hg' (fun _ _ => trivial)
          intro g'' idStr hg'' _
          split
          · have hkey : kfw.2.id = kfw.1 := by
              have := hg''.1.2.2.1
              rw [hg''.2] at this
              exact this kfw hkfw
            refine ⟨addEdge_good g'' kfw.2 nd "protects" hg''.1 ?_
              (by rw [hg''.2]; exact hnd), ?_⟩
            · rw [hg''.2, hkey]
              exact lookupKey_isSome_of_mem N kfw hkfw
            · rw [addEdge_nodes]; exact hg''.2
          · exact hg''
        · exact hg'
      · intro b hb
        rw [← hg.2]; exact hb
    · exact hg
  · exact hg

/-- The load-balancer implicit rule preserves the invariant and the node
map. -/
theorem implicitLBRule_pres (N : List (String × GNode)) (g : Graph)
    (nd : GNode) (hg : GoodGraph g ∧ g.nodes = N)
    (hnd : (lookupKey N nd.id).isSome = true) :
    GoodGraph (implicitLBRule g nd) ∧ (implicitLBRule g nd).nodes = N := by
  unfold implicitLBRule
  split
  · refine foldl_pres (fun g' => GoodGraph g' ∧ g'.nodes = N)
      (fun _ => True) _ ?_ _ g hg (fun _ _ => trivial)
    intro g' idStr hg' _
    cases hf : findNodeByAttributeValue g' "id" idStr with
    | none => simpa [hf] using hg'
    | some dropletNode =>
        simp only [hf]
        refine ⟨addEdge_good g' nd dropletNode "routes_to" hg'.1
          (by rw [hg'.2]; exact hnd) (findNode_isSome g' hg'.1 _ _ _ hf),
          ?_⟩
        rw [addEdge_nodes]; exact hg'.2
  · exact hg

/-- detectImplicitConnections preserves the invariant and the node map. -/
theorem detectImplicitConnections_pres (g : Graph) (hg : GoodGraph g) :
    GoodGraph (detectImplicitConnections g) ∧
      (detectImplicitConnections g).nodes = g.nodes := by
  unfold detectImplicitConnections
  refine foldl_pres (fun g' => GoodGraph g' ∧ g'.nodes = g.nodes)
    (fun kn => kn ∈ g.nodes) _ ?_ g.nodes g ⟨hg, rfl⟩ (fun _ hb => hb)
  intro g' kn hg' hkn
  have hnd : (lookupKey g.nodes kn.2.id).isSome = true := by
    have hkey : kn.2.id = kn.1 := by
      have := hg'.1.2.2.1
      rw [hg'.2] at this
      exact this kn hkn
    rw [hkey]
    exact lookupKey_isSome_of_mem g.nodes kn hkn
  unfold detectImplicitForNode
  exact implicitLBRule_pres g.nodes _ kn.2
    (implicitDropletRule_pres g.nodes _ kn.2
      (implicitAWSRule_pres g.nodes _ kn.2
        (implicitAzureRule_pres g.nodes g' kn.2 hg') hnd) hnd) hnd

/-- addNodeForResource leaves edges and index unchanged. -/
theorem addNodeForResource_edges_index (g : Graph) (r : Resource) :
    (addNodeForResource g r).edges = g.edges ∧
      (addNodeForResource g r).attributeIndex = g.attributeIndex := by
  unfold addNodeForResource
  split <;> exact ⟨rfl, rfl⟩

/-- addNodeForResource keeps every map value keyed by its id. -/
theorem addNodeForResource_keyed (g : Graph) (r : Resource)
    (h : ∀ kv ∈ g.nodes, kv.2.id = kv.1) :
    ∀ kv ∈ (addNodeForResource g r).nodes, kv.2.id = kv.1 := by
  unfold addNodeForResource
  split
  · exact h
  · intro kv hkv
    rcases putKey_mem _ _ _ _ hkv with h' | h'
    · subst h'; rfl
    · exact h kv h'

/-- The node phase leaves edges and index unchanged and keeps map values
keyed. -/
theorem buildNodesPhase_props (cancelAt : Nat) :
    ∀ (rs : List Resource) (k : Nat) (g : Graph),
      (buildNodesPhase cancelAt rs k g).1.edges = g.edges ∧
      (buildNodesPhase cancelAt rs k g).1.attributeIndex =
        g.attributeIndex ∧
      ((∀ kv ∈ g.nodes, kv.2.id = kv.1) →
        ∀ kv ∈ (buildNodesPhase cancelAt rs k g).1.nodes, kv.2.id = kv.1)
    := by
  intro rs
  induction rs with
  | nil => intro k g; exact ⟨rfl, rfl, fun h => h⟩
  | cons res rest ih =>
      intro k g
      unfold buildNodesPhase
      split
      · exact ⟨rfl, rfl, fun h => h⟩
      · obtain ⟨he, hi, hk⟩ := ih (k + 1) (addNodeForResource g res)
        refine ⟨?_, ?_, ?_⟩
        · rw [he, (addNodeForResource_edges_index g res).1]
        · rw [hi, (addNodeForResource_edges_index g res).2]
        · intro h
          exact hk (addNodeForResource_keyed g res h)

/-- buildAttributeIndex keeps nodes and edges, and its index values are
node-map values. -/
theorem buildAttributeIndex_props (g : Graph) :
    (buildAttributeIndex g).nodes = g.nodes ∧
      (buildAttributeIndex g).edges = g.edges ∧
      (∀ ie ∈ (buildAttributeIndex g).attributeIndex,
        ∃ kv ∈ g.nodes, kv.2 = ie.2) := by
  refine ⟨rfl, rfl, ?_⟩
  unfold buildAttributeIndex
  dsimp only
  refine foldl_pres
    (fun idx : List ((String × String) × GNode) =>
      ∀ ie ∈ idx, ∃ kv ∈ g.nodes, kv.2 = ie.2)
    (fun kn => kn ∈ g.nodes) _ ?_ g.nodes []
    (by intro ie h; cases h) (fun _ hb => hb)
  intro idx kn hidx hkn
  refine foldl_pres
    (fun idx' : List ((String × String) × GNode) =>
      ∀ ie ∈ idx', ∃ kv ∈ g.nodes, kv.2 = ie.2)
    (fun _ => True) _ ?_ kn.2.attrs idx hidx (fun _ _ => trivial)
  intro idx' kv hidx' _
  cases hv : kv.2 with
  | str s =>
      simp only [hv]
      cases hfind : idx'.find? (fun e => e.1 = (kv.1, s)) with
      | some e =>
          simp only [hfind]
          intro ie hie
          rcases List.mem_map.mp hie with ⟨orig, horig, heq⟩
          by_cases hc : orig.1 = (kv.1, s)
          · rw [← heq]
            simp only [if_pos hc]
            exact ⟨kn, hkn, rfl⟩
          · rw [← heq]
            simp only [if_neg hc]
            exact hidx' orig horig
      | none =>
          simp only [hfind]
          intro ie hie
          rcases List.mem_append.mp hie with h | h
          · exact hidx' ie h
          · simp only [List.mem_singleton] at h
            subst h
            exact ⟨kn, hkn, rfl⟩
  | list vs => simpa [hv] using hidx'
  | other => simpa [hv] using hidx'

/-- addEdgesForResource preserves the invariant and the node map. -/
theorem addEdgesForResource_pres (N : List (String × GNode)) (g : Graph)
    (res : Resource) (hg : GoodGraph g ∧ g.nodes = N) :
    GoodGraph (addEdgesForResource g res) ∧
      (addEdgesForResource g res).nodes = N := by
  unfold addEdgesForResource
  cases hfrom : lookupKey g.nodes res.id with
  | none => simpa [hfrom] using hg
  | some fromNode =>
      simp only [hfrom]
      have hfromMem := lookupKey_mem g.nodes res.id fromNode hfrom
      have hfromId : fromNode.id = res.id := hg.1.2.2.1 _ hfromMem
      refine foldl_pres (fun g' => GoodGraph g' ∧ g'.nodes = N)
        (fun _ => True) _ ?_ res.deps g hg (fun _ _ => trivial)
      intro g' depID hg' _
      cases hto : lookupKey g'.nodes depID with
      | none => simpa [hto] using hg'
      | some toNode =>
          simp only [hto]
          have htoMem := lookupKey_mem g'.nodes depID toNode hto
          have htoId : toNode.id = depID := hg'.1.2.2.1 _ htoMem
          refine ⟨addEdge_good g' fromNode toNode _ hg'.1 ?_ ?_, ?_⟩
          · rw [hfromId, hg'.2, ← hg.2]
            rw [lookupKey_isSome_iff]
            exact List.mem_map_of_mem Prod.fst hfromMem
          · rw [htoId]
            exact lookupKey_isSome_of_mem g'.nodes _ htoMem
          · rw [addEdge_nodes]; exact hg'.2

/-- The explicit-edge phase preserves the invariant and the node map. -/
theorem buildEdgesPhase_pres (cancelAt : Nat) (N : List (String × GNode)) :
    ∀ (rs : List Resource) (k : Nat) (g : Graph),
      GoodGraph g ∧ g.nodes = N →
      GoodGraph (buildEdgesPhase cancelAt rs k g).1 ∧
        (buildEdgesPhase cancelAt rs k g).1.nodes = N := by
  intro rs
  induction rs with
  | nil => intro k g hg; exact hg
  | cons res rest ih =>
      intro k g hg
      unfold buildEdgesPhase
      split
      · exact hg
      · exact ih (k + 1) _ (addEdgesForResource_pres N g res hg)

/-- The empty graph satisfies the invariant. -/
theorem goodGraph_empty : GoodGraph ⟨[], [], []⟩ := by
  refine ⟨List.nodup_nil, ?_, ?_, ?_⟩
  · intro e he; cases he
  · intro kv hkv; cases hkv
  · intro ie hie; cases hie

/-- Every graph BuildGraph returns (for any cancellation point) satisfies
the invariant. -/
theorem BuildGraph_good (cancelAt : Nat) (rs : List Resource) :
    GoodGraph (BuildGraph cancelAt rs) := by
  unfold BuildGraph
  dsimp only
  obtain ⟨hpe, hpi, hpk⟩ := buildNodesPhase_props cancelAt rs 0 ⟨[], [], []⟩
  have hkeyed := hpk (by intro kv hkv; cases hkv)
  have hgood1 : GoodGraph (buildNodesPhase cancelAt rs 0 ⟨[], [], []⟩).1 := by
    refine ⟨?_, ?_, hkeyed, ?_⟩
    · rw [show edgePairs (buildNodesPhase cancelAt rs 0 ⟨[], [], []⟩).1 =
          [] by unfold edgePairs; rw [hpe]; rfl]
      exact List.nodup_nil
    · intro e he
      rw [hpe] at he
      cases he
    · intro ie hie
      rw [hpi] at hie
      cases hie
  rcases hres : buildNodesPhase cancelAt rs 0 ⟨[], [], []⟩ with ⟨g1, k, b⟩
  rw [hres] at hgood1 hpe hpi
  cases b
  · obtain ⟨hbn, hbe, hbi⟩ := buildAttributeIndex_props g1
    have hgood2 : GoodGraph (buildAttributeIndex g1) := by
      obtain ⟨q1, q2, q3, q4⟩ := hgood1
      refine ⟨?_, ?_, ?_, ?_⟩
      · rw [show edgePairs (buildAttributeIndex g1) = edgePairs g1 by
          unfold edgePairs; rw [hbe]]
        exact q1
      · intro e he
        rw [hbe] at he
        rw [hbn]
        exact q2 e he
      · intro kv hkv
        rw [hbn] at hkv
        exact q3 kv hkv
      · intro ie hie
        rw [hbn]
        exact hbi ie hie
    have hphase2 := buildEdgesPhase_pres cancelAt (buildAttributeIndex g1).nodes
      rs k (buildAttributeIndex g1) ⟨hgood2, rfl⟩
    dsimp only
    rcases hres2 : buildEdgesPhase cancelAt rs k (buildAttributeIndex g1)
      with ⟨g2, b2⟩
    rw [hres2] at hphase2
    cases b2
    · exact (detectImplicitConnections_pres g2 hphase2.1).1
    · exact hphase2.1
  · exact hgood1

/-- Claim C2 (confirmed): at every point during and after BuildGraph - the
result for every cancellation point, which includes every early-exit
prefix of the build - no two edges share an ordered (From.ID, To.ID) pair
and both endpoints of every edge are keys of Graph.Nodes; and addEdge is
a no-op on a pair that already exists. -/
theorem C2_edge_invariants :
    (∀ (cancelAt : Nat) (rs : List Resource),
      (edgePairs (BuildGraph cancelAt rs)).Nodup ∧
      ((BuildGraph cancelAt rs).edges.all
        (fun e =>
          (lookupKey (BuildGraph cancelAt rs).nodes e.fromN.id).isSome &&
          (lookupKey (BuildGraph cancelAt rs).nodes e.toN.id).isSome))
        = true) ∧
    (∀ (g : Graph) (a b : GNode) (rel : String),
      edgeExists g a b = true → addEdge g a b rel = g) := by
  constructor
  · intro cancelAt rs
    obtain ⟨h1, h2, -, -⟩ := BuildGraph_good cancelAt rs
    refine ⟨h1, ?_⟩
    rw [List.all_eq_true]
    intro e he
    obtain ⟨ha, hb⟩ := h2 e he
    rw [ha, hb]
    rfl
  · intro g a b rel hex
    rw [addEdge_spec, if_pos hex]

/-- Witness for C2: adding the already-present edge A→B to the concrete
graph gIdem leaves it unchanged. -/
theorem C2_witness :
    addEdge gIdem (mkGNode "A" "a" .unknown) (mkGNode "B" "b" .unknown)
      "depends_on" = gIdem :=
  C2_edge_invariants.2 gIdem (mkGNode "A" "a" .unknown)
    (mkGNode "B" "b" .unknown) "depends_on" (by decide)

/-- Edges of addEdge: the old edges or the new one. -/
theorem addEdge_edges_cases (g : Graph) (a b : GNode) (rel : String)
    (e : GEdge) (he : e ∈ (addEdge g a b rel).edges) :
    e ∈ g.edges ∨ e = ⟨a, b, rel⟩ := by
  rw [addEdge_spec] at he
  by_cases hex : edgeExists g a b = true
  · rw [if_pos hex] at he; exact Or.inl he
  · rw [if_neg hex] at he
    rcases List.mem_append.mp he with h | h
    · exact Or.inl h
    · simp only [List.mem_singleton] at h; exact Or.inr h

/-- addEdgesForResource never changes the node map. -/
theorem addEdgesForResource_nodes (g : Graph) (res : Resource) :
    (addEdgesForResource g res).nodes = g.nodes := by
  unfold addEdgesForResource
  cases hfrom : lookupKey g.nodes res.id with
  | none => rfl
  | some fromNode =>
      simp only
      refine foldl_pres (fun g' => g'.nodes = g.nodes) (fun _ => True) _ ?_
        res.deps g rfl (fun _ _ => trivial)
      intro g' depID hg' _
      cases hto : lookupKey g'.nodes depID with
      | none => simpa [hto] using hg'
      | some toNode =>
          simp only [hto]
          rw [addEdge_nodes]; exact hg'

/-- The explicit-edge phase never changes the node map. -/
theorem buildEdgesPhase_nodes (cancelAt : Nat) :
    ∀ (rs : List Resource) (k : Nat) (g : Graph),
      (buildEdgesPhase cancelAt rs k g).1.nodes = g.nodes := by
  intro rs
  induction rs with
  | nil => intro k g; rfl
  | cons res rest ih =>
      intro k g
      unfold buildEdgesPhase
      split
      · rfl
      · rw [ih (k + 1) (addEdgesForResource g res),
          addEdgesForResource_nodes]

/-- When no phase-2 check observes cancellation on a nonempty list, the
cancellation point lies at or beyond the check after the last one. -/
theorem buildEdgesPhase_false_bound (cancelAt : Nat) :
    ∀ (rs : List Resource) (k : Nat) (g : Graph),
      (buildEdgesPhase cancelAt rs k g).2 = false →
      rs = [] ∨ k + rs.length ≤ cancelAt := by
  intro rs
  induction rs with
  | nil => intro k g _; exact Or.inl rfl
  | cons res rest ih =>
      intro k g h
      unfold buildEdgesPhase at h
      by_cases hc : cancelAt ≤ k
      · rw [if_pos hc] at h; cases h
      · rw [if_neg hc] at h
        rcases ih (k + 1) (addEdgesForResource g res) h with h' | h'
        · subst h'
          right
          simp only [List.length_cons, List.length_nil]
          omega
        · right
          simp only [List.length_cons]
          omega

/-- When the node phase observes no cancellation, it consumes exactly one
check per resource. -/
theorem buildNodesPhase_false_k (cancelAt : Nat) :
    ∀ (rs : List Resource) (k : Nat) (g : Graph),
      (buildNodesPhase cancelAt rs k g).2.2 = false →
      (buildNodesPhase cancelAt rs k g).2.1 = k + rs.length := by
  intro rs
  induction rs with
  | nil => intro k g _; rfl
  | cons res rest ih =>
      intro k g h
      unfold buildNodesPhase at h ⊢
      by_cases hc : cancelAt ≤ k
      · rw [if_pos hc] at h; cases h
      · rw [if_neg hc] at h ⊢
        rw [ih (k + 1) (addNodeForResource g res) h]
        simp only [List.length_cons]
        omega

/-- Every edge added by addEdgesForResource for a listed resource comes
from that resource's dependency list. -/
theorem addEdgesForResource_dep (rsAll : List Resource) (res : Resource)
    (hres : res ∈ rsAll) (g : Graph)
    (hkeyed : ∀ kv ∈ g.nodes, kv.2.id = kv.1)
    (hdep : ∀ e ∈ g.edges,
      ∃ r ∈ rsAll, e.fromN.id = r.id ∧ e.toN.id ∈ r.deps) :
    ∀ e ∈ (addEdgesForResource g res).edges,
      ∃ r ∈ rsAll, e.fromN.id = r.id ∧ e.toN.id ∈ r.deps := by
  unfold addEdgesForResource
  cases hfrom : lookupKey g.nodes res.id with
  | none => simpa [hfrom] using hdep
  | some fromNode =>
      simp only
      have hfromId : fromNode.id = res.id :=
        hkeyed _ (lookupKey_mem g.nodes res.id fromNode hfrom)
      have := foldl_pres
        (fun g' => (∀ e ∈ g'.edges,
          ∃ r ∈ rsAll, e.fromN.id = r.id ∧ e.toN.id ∈ r.deps) ∧
          g'.nodes = g.nodes)
        (fun depID => depID ∈ res.deps)
        (fun acc depID =>
          match lookupKey acc.nodes depID with
          | none => acc
          | some toNode =>
              addEdge acc fromNode toNode
                (inferRelationship fromNode toNode))
        ?_ res.deps g ⟨hdep, rfl⟩ (fun _ hb => hb)
      · exact this.1
      · intro g' depID hg' hdepID
        cases hto : lookupKey g'.nodes depID with
        | none => simpa [hto] using hg'
        | some toNode =>
            simp only [hto]
            have htoId : toNode.id = depID := by
              have hmem := lookupKey_mem g'.nodes depID toNode hto
              rw [hg'.2] at hmem
              exact hkeyed _ hmem
            constructor
            · intro e he
              rcases addEdge_edges_cases g' fromNode toNode _ e he with
                h | h
              · exact hg'.1 e h
              · subst h
                exact ⟨res, hres, hfromId, by rw [htoId]; exact hdepID⟩
            · rw [addEdge_nodes]; exact hg'.2

/-- Every edge present after the explicit-edge phase (whether or not it
was cut short by cancellation) comes from some resource's dependency
list. -/
theorem buildEdgesPhase_dep (cancelAt : Nat) (rsAll : List Resource) :
    ∀ (rs : List Resource) (k : Nat) (g : Graph),
      (∀ r ∈ rs, r ∈ rsAll) →
      (∀ kv ∈ g.nodes, kv.2.id = kv.1) →
      (∀ e ∈ g.edges,
        ∃ r ∈ rsAll, e.fromN.id = r.id ∧ e.toN.id ∈ r.deps) →
      ∀ e ∈ (buildEdgesPhase cancelAt rs k g).1.edges,
        ∃ r ∈ rsAll, e.fromN.id = r.id ∧ e.toN.id ∈ r.deps := by
  intro rs
  induction rs with
  | nil => intro k g _ _ hdep; exact hdep
  | cons res rest ih =>
      intro k g hsub hkeyed hdep
      unfold buildEdgesPhase
      split
      · exact hdep
      · refine ih (k + 1) _ (fun r hr => hsub r (List.mem_cons_of_mem _ hr))
          ?_ ?_
        · rw [addEdgesForResource_nodes]; exact hkeyed
        · exact addEdgesForResource_dep rsAll res
            (hsub res (List.mem_cons_self _ _)) g hkeyed hdep

/-- Claim C7 (corrected): cancellation checks sit at the start of each
iteration of the node-creation and explicit-edge loops only - there is no
check before implicit-connection detection (see the counterexample).  What
does hold: whenever cancellation is visible to some check (the point lies
before check 2n), the returned graph contains no implicit edge - every
edge comes from a listed resource's dependency list - and the build
returns the partial graph rather than an error. -/
theorem C7_cancellation_partial (rs : List Resource) (cancelAt : Nat)
    (h : cancelAt < 2 * rs.length) :
    ∀ e ∈ (BuildGraph cancelAt rs).edges,
      ∃ r ∈ rs, e.fromN.id = r.id ∧ e.toN.id ∈ r.deps := by
  unfold BuildGraph
  dsimp only
  obtain ⟨hpe, hpi, hpk⟩ := buildNodesPhase_props cancelAt rs 0 ⟨[], [], []⟩
  have hkeyed := hpk (by intro kv hkv; cases hkv)
  rcases hres : buildNodesPhase cancelAt rs 0 ⟨[], [], []⟩ with ⟨g1, k, b⟩
  rw [hres] at hpe hpi hkeyed
  cases b
  · have hk : k = rs.length := by
      have := buildNodesPhase_false_k cancelAt rs 0 ⟨[], [], []⟩
        (by rw [hres])
      rw [hres] at this
      simpa using this
    dsimp only
    rcases hres2 : buildEdgesPhase cancelAt rs k (buildAttributeIndex g1)
      with ⟨g2, b2⟩
    cases b2
    · -- no phase-2 check fired: impossible under the hypothesis
      rcases buildEdgesPhase_false_bound cancelAt rs k
          (buildAttributeIndex g1) (by rw [hres2]) with hnil | hbound
      · subst hnil
        simp only [List.length_nil] at h
        omega
      · rw [hk] at hbound
        omega
    · -- cancelled during phase 2: only dependency edges exist
      have hkeyed2 : ∀ kv ∈ (buildAttributeIndex g1).nodes, kv.2.id = kv.1
        := by
        rw [(buildAttributeIndex_props g1).1]
        exact hkeyed
      have hdep0 : ∀ e ∈ (buildAttributeIndex g1).edges,
          ∃ r ∈ rs, e.fromN.id = r.id ∧ e.toN.id ∈ r.deps := by
        rw [(buildAttributeIndex_props g1).2.1]
        simp only at hpe
        rw [hpe]
        intro e he
        cases he
      have := buildEdgesPhase_dep cancelAt rs rs k (buildAttributeIndex g1)
        (fun r hr => hr) hkeyed2 hdep0
      rw [hres2] at this
      exact this
  · -- cancelled during phase 1: no edges at all
    intro e he
    simp only at hpe
    rw [hpe] at he
    cases he

/-- Witness for C7: BuildGraph of the two explicit-dependency resources
with cancellation visible from check 3 keeps the already-added dependency
edge, which indeed stems from rInst's dependency list. -/
theorem C7_witness :
    ∃ r ∈ rsExplicit,
      (⟨⟨"B", "aws_instance", "b", "aws", GetResourceType "aws_instance",
        []⟩,
        ⟨"A", "aws_vpc", "a", "aws", GetResourceType "aws_vpc", []⟩,
        "depends_on"⟩ : GEdge).fromN.id = r.id ∧
      (⟨⟨"B", "aws_instance", "b", "aws", GetResourceType "aws_instance",
        []⟩,
        ⟨"A", "aws_vpc", "a", "aws", GetResourceType "aws_vpc", []⟩,
        "depends_on"⟩ : GEdge).toN.id ∈ r.deps :=
  C7_cancellation_partial rsExplicit 3 (by decide) _ (List.Mem.head _)

/-- The azure implicit rule never changes the node map. -/
theorem implicitAzureRule_nodes (g : Graph) (nd : GNode) :
    (implicitAzureRule g nd).nodes = g.nodes := by
  unfold implicitAzureRule
  dsimp only
  split
  · cases h1 : findNodeByAttributeValue g "id"
        (getAttributeString nd.attrs "subnet_id") with
    | none => simp [h1]
    | some subnetNode =>
        cases h2 : findNodeByAttributeValue g "id"
            (getAttributeString nd.attrs "network_security_group_id") with
        | none => simp [h1, h2]
        | some nsgNode =>
            simp only [h1, h2]
            exact addEdge_nodes _ _ _ _
  · rfl

/-- The aws implicit rule never changes the node map. -/
theorem implicitAWSRule_nodes (g : Graph) (nd : GNode) :
    (implicitAWSRule g nd).nodes = g.nodes := by
  unfold implicitAWSRule
  split
  · refine foldl_pres (fun g' => g'.nodes = g.nodes) (fun _ => True) _ ?_
      _ g rfl (fun _ _ => trivial)
    intro g' sgID hg' _
    cases hf : findNodeByAttributeValue g' "id" sgID with
    | none => simpa [hf] using hg'
    | some sgNode => simp only [hf]; rw [addEdge_nodes]; exact hg'
  · rfl

/-- The droplet implicit rule never changes the node map. -/
theorem implicitDropletRule_nodes (g : Graph) (nd : GNode) :
    (implicitDropletRule g nd).nodes = g.nodes := by
  unfold implicitDropletRule
  dsimp only
  split
  · split
    · refine foldl_pres (fun g' => g'.nodes = g.nodes) (fun _ => True) _ ?_
        _ g rfl (fun _ _ => trivial)
      intro g' kfw hg' _
      split
      · refine foldl_pres (fun g'' => g''.nodes = g.nodes) (fun _ => True)
          _ ?_ _ g' hg' (fun _ _ => trivial)
        intro g'' idStr hg'' _
        split
        · rw [addEdge_nodes]; exact hg''
        · exact hg''
      · exact hg'
    · rfl
  · rfl

/-- The load-balancer implicit rule never changes the node map. -/
theorem implicitLBRule_nodes (g : Graph) (nd : GNode) :
    (implicitLBRule g nd).nodes = g.nodes := by
  unfold implicitLBRule
  split
  · refine foldl_pres (fun g' => g'.nodes = g.nodes) (fun _ => True) _ ?_
      _ g rfl (fun _ _ => trivial)
    intro g' idStr hg' _
    cases hf : findNodeByAttributeValue g' "id" idStr with
    | none => simpa [hf] using hg'
    | some dropletNode => simp only [hf]; rw [addEdge_nodes]; exact hg'
  · rfl

/-- detectImplicitConnections never changes the node map. -/
theorem detectImplicitConnections_nodes (g : Graph) :
    (detectImplicitConnections g).nodes = g.nodes := by
  unfold detectImplicitConnections
  refine foldl_pres (fun g' => g'.nodes = g.nodes) (fun _ => True) _ ?_
    g.nodes g rfl (fun _ _ => trivial)
  intro g' kn hg' _
  unfold detectImplicitForNode
  rw [implicitLBRule_nodes, implicitDropletRule_nodes,
    implicitAWSRule_nodes, implicitAzureRule_nodes]
  exact hg'

/-- Provenance of node-phase entries: every key of the built node map is
the id of a retained listed resource. -/
theorem buildNodesPhase_prov (cancelAt : Nat) (rsAll : List Resource) :
    ∀ (rs : List Resource) (k : Nat) (g : Graph),
      (∀ r ∈ rs, r ∈ rsAll) →
      (∀ id, (lookupKey g.nodes id).isSome = true →
        ∃ r ∈ rsAll, r.id = id ∧ ShouldIncludeInDiagram r = true) →
      ∀ id,
        (lookupKey (buildNodesPhase cancelAt rs k g).1.nodes id).isSome =
          true →
        ∃ r ∈ rsAll, r.id = id ∧ ShouldIncludeInDiagram r = true := by
  intro rs
  induction rs with
  | nil => intro k g _ hbase; exact hbase
  | cons res rest ih =>
      intro k g hsub hbase
      unfold buildNodesPhase
      split
      · exact hbase
      · refine ih (k + 1) _ (fun r hr => hsub r (List.mem_cons_of_mem _ hr))
          ?_
        intro id hid
        unfold addNodeForResource at hid
        by_cases hinc : ShouldIncludeInDiagram res = true
        · rw [if_neg (by simp [hinc])] at hid
          rcases (lookupKey_putKey_isSome_iff g.nodes res.id id _).mp hid
            with h | h
          · exact ⟨res, hsub res (List.mem_cons_self _ _), h.symm ▸ rfl,
              hinc⟩
          · exact hbase id h
        · rw [if_pos (by simp [Bool.eq_false_iff.mpr hinc])] at hid
          exact hbase id hid

/-- The node map of the final graph is the node map built in phase 1. -/
theorem BuildGraph_nodes (cancelAt : Nat) (rs : List Resource) :
    (BuildGraph cancelAt rs).nodes =
      (buildNodesPhase cancelAt rs 0 ⟨[], [], []⟩).1.nodes := by
  unfold BuildGraph
  dsimp only
  rcases hres : buildNodesPhase cancelAt rs 0 ⟨[], [], []⟩ with ⟨g1, k, b⟩
  cases b
  · dsimp only
    rcases hres2 : buildEdgesPhase cancelAt rs k (buildAttributeIndex g1)
      with ⟨g2, b2⟩
    have hn2 : g2.nodes = g1.nodes := by
      have := buildEdgesPhase_nodes cancelAt rs k (buildAttributeIndex g1)
      rw [hres2] at this
      rw [this]
      exact (buildAttributeIndex_props g1).1
    cases b2
    · rw [detectImplicitConnections_nodes, hn2]
    · exact hn2
  · rfl

/-- Claim C9 (corrected): the exclusion predicate retains a resource iff
its type is not deny-listed AND its lower-cased type does not contain
"_association" without also containing "load_balancer"; generic
"attachment" helper types are NOT dropped (see the counterexample).  Every
node of any built graph stems from a retained listed resource, so an
excluded resource never creates a node. -/
theorem C9_exclusion_predicate :
    (∀ r : Resource,
      ShouldIncludeInDiagram r =
        (!(excludedTypes.contains r.rtype) &&
          !(strContains (strToLower r.rtype) "_association" &&
            !(strContains (strToLower r.rtype) "load_balancer")))) ∧
    (∀ (cancelAt : Nat) (rs : List Resource) (id : String),
      (lookupKey (BuildGraph cancelAt rs).nodes id).isSome = true →
      ∃ r ∈ rs, r.id = id ∧ ShouldIncludeInDiagram r = true) := by
  constructor
  · intro r
    unfold ShouldIncludeInDiagram IsCloudInfraResource
    dsimp only
    cases hc : excludedTypes.contains r.rtype <;>
      cases ha : strContains (strToLower r.rtype) "_association" <;>
        cases hb : strContains (strToLower r.rtype) "load_balancer" <;>
          simp [hc, ha, hb]
  · intro cancelAt rs id hid
    rw [BuildGraph_nodes] at hid
    refine buildNodesPhase_prov cancelAt rs rs 0 ⟨[], [], []⟩
      (fun r hr => hr) ?_ id hid
    intro id' hid'
    cases hid'

/-- Witness for C9: the vpc resource's node is present in the built graph
and indeed stems from the retained listed resource rVpc. -/
theorem C9_witness :
    ∃ r ∈ [rVpc, rInst], r.id = "A" ∧ ShouldIncludeInDiagram r = true :=
  C9_exclusion_predicate.2 1000 [rVpc, rInst] "A" (by decide)

/-- Keys after insertion. -/
theorem keysOf_putKey_mem {α : Type} (l : List (String × α)) (k : String)
    (v : α) (id : String) :
    id ∈ keysOf (putKey l k v) ↔ id = k ∨ id ∈ keysOf l := by
  rw [← lookupKey_isSome_iff, ← lookupKey_isSome_iff,
    lookupKey_putKey_isSome_iff]

/-- Keys of an insertion fold over an enumerated layer. -/
theorem keys_inner {α : Type} (val : Nat × String → α) :
    ∀ (l : List (Nat × String)) (acc : List (String × α)) (id : String),
      id ∈ keysOf (l.foldl (fun acc' ni => putKey acc' ni.2 (val ni)) acc)
        ↔ id ∈ l.map Prod.snd ∨ id ∈ keysOf acc := by
  intro l
  induction l with
  | nil => intro acc id; simp
  | cons ni rest ih =>
      intro acc id
      simp only [List.foldl_cons, List.map_cons, List.mem_cons]
      rw [ih, keysOf_putKey_mem]
      tauto

/-- Keys of a layered insertion fold. -/
theorem keys_outer {α : Type}
    (inner : List (String × α) → (Nat × List String) → List (String × α))
    (hinner : ∀ acc li id,
      id ∈ keysOf (inner acc li) ↔ id ∈ li.2 ∨ id ∈ keysOf acc) :
    ∀ (ls : List (Nat × List String)) (acc : List (String × α))
      (id : String),
      id ∈ keysOf (ls.foldl inner acc) ↔
        (∃ li ∈ ls, id ∈ li.2) ∨ id ∈ keysOf acc := by
  intro ls
  induction ls with
  | nil => intro acc id; simp
  | cons li rest ih =>
      intro acc id
      simp only [List.foldl_cons, List.mem_cons]
      rw [ih, hinner]
      constructor
      · rintro (⟨li', hli', h⟩ | h | h)
        · exact Or.inl ⟨li', Or.inr hli', h⟩
        · exact Or.inl ⟨li, Or.inl rfl, h⟩
        · exact Or.inr h
      · rintro (⟨li', hli' | hli', h⟩ | h)
        · subst hli'; exact Or.inr (Or.inl h)
        · exact Or.inl ⟨li', hli', h⟩
        · exact Or.inr (Or.inr h)

/-- Coordinate assignment creates exactly one entry per layered id. -/
theorem assignCoordinates_keys (layers : List (List String))
    (dir : String) (w h hs vs : Frac) (id : String) :
    id ∈ keysOf (assignCoordinatesWithSpacing layers dir w h hs vs).1 ↔
      id ∈ layers.flatten := by
  unfold assignCoordinatesWithSpacing
  dsimp only
  refine (keys_outer _ ?_ layers.enum [] id).trans ?_
  · intro acc li id'
    refine (keys_inner _ li.2.enum acc id').trans ?_
    rw [List.enum_map_snd]
  · simp only [keysOf, List.map_nil, List.not_mem_nil, or_false]
    constructor
    · rintro ⟨li, hli, h⟩
      exact List.mem_flatten.mpr ⟨li.2,
        by rw [← List.enum_map_snd layers]
           exact List.mem_map_of_mem Prod.snd hli, h⟩
    · intro hmem
      rcases List.mem_flatten.mp hmem with ⟨s, hs, h⟩
      rw [← List.enum_map_snd layers] at hs
      rcases List.mem_map.mp hs with ⟨li, hli, heq⟩
      exact ⟨li, hli, heq ▸ h⟩

/-- The overlap pass preserves the length of the layout list. -/
theorem overlapPass_length (sqrtF : Frac → Frac) (inc : Frac)
    (arr : List NodeLayout) :
    (overlapPass sqrtF inc arr).length = arr.length := by
  unfold overlapPass
  refine foldl_pres (fun a => a.length = arr.length) (fun _ => True) _ ?_
    _ arr rfl (fun _ _ => trivial)
  intro a i ha _
  refine foldl_pres (fun a' => a'.length = arr.length) (fun _ => True) _ ?_
    _ a ha (fun _ _ => trivial)
  intro a' j ha' _
  by_cases hij : i < j
  · rw [if_pos hij]
    cases hgi : a'.get? i with
    | none => simpa using ha'
    | some ni =>
        cases hgj : a'.get? j with
        | none => simpa [hgi] using ha'
        | some nj =>
            by_cases hov : nodesOverlap ni nj = true
            · simpa [hgi, hgj, hov] using ha'
            · simpa [hgi, hgj, Bool.eq_false_iff.mpr hov] using ha'
  · rwa [if_neg hij]

/-- Overlap resolution preserves the key list. -/
theorem resolveOverlaps_keys (sqrtF : Frac → Frac) (w h : Frac)
    (assoc : List (String × NodeLayout)) :
    keysOf (resolveOverlaps sqrtF w h assoc) = keysOf assoc := by
  show keysOf ((assoc.map Prod.fst).zip
    (overlapPass sqrtF (w * ⟨1, 5⟩) (assoc.map Prod.snd))) = keysOf assoc
  unfold keysOf
  rw [List.map_fst_zip]
  rw [overlapPass_length, List.length_map, List.length_map]

/-- Membership in a flattened list through positions. -/
theorem mem_flatten_iff_getElem {α : Type} (L : List (List α)) (x : α) :
    x ∈ L.flatten ↔ ∃ (j : Nat) (h : j < L.length), x ∈ L[j] := by
  rw [List.mem_flatten]
  constructor
  · rintro ⟨s, hs, h⟩
    rcases List.mem_iff_getElem.mp hs with ⟨j, hj, heq⟩
    exact ⟨j, hj, heq ▸ h⟩
  · rintro ⟨j, hj, h⟩
    exact ⟨L[j], List.getElem_mem hj, h⟩

/-- Replacing one layer by a member-equivalent list keeps flattened
membership. -/
theorem flatten_set_mem (ls : List (List String)) (i : Nat)
    (hi : i < ls.length) (l' : List String)
    (hiff : ∀ x, x ∈ l' ↔ x ∈ ls[i]) (x : String) :
    x ∈ (ls.set i l').flatten ↔ x ∈ ls.flatten := by
  rw [mem_flatten_iff_getElem, mem_flatten_iff_getElem]
  constructor
  · rintro ⟨j, hj, h⟩
    rw [List.length_set] at hj
    rw [List.getElem_set] at h
    by_cases hij : i = j
    · rw [if_pos hij] at h
      exact ⟨i, hi, (hiff x).mp h⟩
    · rw [if_neg hij] at h
      exact ⟨j, hj, h⟩
  · rintro ⟨j, hj, h⟩
    by_cases hij : i = j
    · subst hij
      exact ⟨i, by simpa using hi, by
        rw [List.getElem_set, if_pos rfl]
        exact (hiff x).mpr h⟩
    · exact ⟨j, by simpa using hj, by
        rw [List.getElem_set, if_neg hij]
        exact h⟩

/-- First component of an if-then-else between pairs sharing it. -/
theorem ite_pair_fst (c : Prop) [Decidable c] (s : String) (a b : Frac) :
    (if c then (s, a) else (s, b)).1 = s := by
  split <;> rfl

/-- A sorted projection of an enumerated layer is a permutation of the
layer. -/
theorem sorted_map_fst_mem (cmp : (String × Frac) → (String × Frac) → Bool)
    (layer : List String) (F : Nat × String → String × Frac)
    (hF : ∀ iv, (F iv).1 = iv.2) (x : String) :
    x ∈ (sortByLt cmp (layer.enum.map F)).map Prod.fst ↔ x ∈ layer := by
  have hperm : List.Perm (sortByLt cmp (layer.enum.map F))
      (layer.enum.map F) := List.perm_insertionSort _ _
  rw [(hperm.map Prod.fst).mem_iff, List.map_map]
  have hmapeq : layer.enum.map (Prod.fst ∘ F) =
      layer.enum.map Prod.snd :=
    List.map_congr_left (fun iv _ => hF iv)
  rw [hmapeq, List.enum_map_snd]

/-- The barycenter reorder permutes one layer and keeps flattened
membership. -/
theorem reorder_flatten_mem (ls : List (List String)) (i : Nat) (g : Graph)
    (forward : Bool) (x : String) :
    x ∈ (reorderLayerByBarycenter ls i g forward).flatten ↔
      x ∈ ls.flatten := by
  unfold reorderLayerByBarycenter
  dsimp only
  by_cases h1 : i ≥ ls.length
  · rw [if_pos h1]
  · rw [if_neg h1]
    by_cases h2 : forward ∧ i = 0
    · rw [if_pos h2]
    · rw [if_neg h2]
      by_cases h3 : !forward ∧ i = ls.length - 1
      · rw [if_pos h3]
      · rw [if_neg h3]
        have hi : i < ls.length := by omega
        refine flatten_set_mem ls i hi _ ?_ x
        intro y
        rw [← List.getD_eq_getElem ls [] hi]
        refine sorted_map_fst_mem _ (ls.getD i []) _ ?_ y
        intro iv
        exact ite_pair_fst _ _ _ _

/-- Crossing minimisation keeps flattened membership. -/
theorem minimizeCrossings_flatten_mem (layers : List (List String))
    (g : Graph) (x : String) :
    x ∈ (minimizeCrossings layers g).flatten ↔ x ∈ layers.flatten := by
  unfold minimizeCrossings
  refine foldl_pres
    (fun ls' => ∀ y, y ∈ ls'.flatten ↔ y ∈ layers.flatten)
    (fun _ => True) _ ?_ (List.range 3) layers (fun _ => Iff.rfl)
    (fun _ _ => trivial) x
  intro ls _ hls _
  have hfwd := foldl_pres
    (fun ls' => ∀ y, y ∈ ls'.flatten ↔ y ∈ layers.flatten)
    (fun _ => True)
    (fun l i => reorderLayerByBarycenter l i g true)
    (fun l i hl _ y => (reorder_flatten_mem l i g true y).trans (hl y))
    (List.range' 1 (ls.length - 1)) ls hls (fun _ _ => trivial)
  exact foldl_pres
    (fun ls' => ∀ y, y ∈ ls'.flatten ↔ y ∈ layers.flatten)
    (fun _ => True)
    (fun l i => reorderLayerByBarycenter l i g false)
    (fun l i hl _ y => (reorder_flatten_mem l i g false y).trans (hl y))
    _ _ hfwd (fun _ _ => trivial)

/-- Every id a grouped layer keeps is a key of the node map. -/
theorem groupBy_subset (g : Graph) (cl : List String) (id : String)
    (h : id ∈ groupByResourceType g cl) : id ∈ keysOf g.nodes := by
  unfold groupByResourceType at h
  rcases List.mem_map.mp h with ⟨p, hp, heq⟩
  have hperm := List.perm_insertionSort
    (fun a b => (!(nodeOrderLt b a)) = true)
    (cl.filterMap (fun id' => (lookupKey g.nodes id').map
      (fun nd => (id', nd))))
  have hp' := hperm.mem_iff.mp hp
  rcases List.mem_filterMap.mp hp' with ⟨id', hid', hsome⟩
  cases hl : lookupKey g.nodes id' with
  | none => rw [hl] at hsome; cases hsome
  | some nd =>
      rw [hl] at hsome
      injection hsome with hpe
      have : p.1 = id' := by rw [← hpe]
      rw [← heq, this, ← lookupKey_isSome_iff, hl]
      rfl

/-- Every id the layering loop emits is a key of the node map. -/
theorem layersLoop_subset (g : Graph) (order : List String) :
    ∀ (fuel : Nat) (processed currentLayer : List String)
      (acc : List (List String)),
      (∀ id ∈ acc.flatten, id ∈ keysOf g.nodes) →
      ∀ id ∈ (layersLoop g order fuel processed currentLayer acc).flatten,
        id ∈ keysOf g.nodes := by
  intro fuel
  induction fuel with
  | zero => intro _ _ acc hacc; exact hacc
  | succ fuel ih =>
      intro processed currentLayer acc hacc
      unfold layersLoop
      split
      · refine ih _ _ _ ?_
        intro id hid
        rw [List.flatten_append] at hid
        rcases List.mem_append.mp hid with h | h
        · exact hacc id h
        · simp only [List.flatten_cons, List.flatten_nil,
            List.append_nil] at h
          exact groupBy_subset g _ id h
      · exact hacc

/-- Every layered id is a key of the node map. -/
theorem assignLayers_subset (g : Graph) (order : List String) (id : String)
    (h : id ∈ (assignLayersWithGrouping g order).flatten) :
    id ∈ keysOf g.nodes := by
  unfold assignLayersWithGrouping at h
  exact layersLoop_subset g order 20 [] _ [] (by intro i hi; cases hi) id h

/-- The pipeline's node-layout keys are exactly the layered ids. -/
theorem pipeline_keys (sqrtF : Frac → Frac) (trig : TrigFns) (g : Graph)
    (order : List String) (dir : String) (w h hs vs : Frac) (id : String) :
    (lookupKey (CalculateImprovedLayout sqrtF trig g order dir w h hs
        vs).nodes id).isSome = true ↔
      id ∈ (assignLayersWithGrouping g order).flatten := by
  unfold CalculateImprovedLayout
  dsimp only
  by_cases hempty : g.nodes.isEmpty = true
  · rw [if_pos hempty]
    dsimp only [lookupKey]
    simp only [Option.isSome_none, Bool.false_eq_true, false_iff]
    intro hmem
    have := assignLayers_subset g order id hmem
    rw [List.isEmpty_iff] at hempty
    rw [hempty] at this
    cases this
  · rw [if_neg hempty]
    dsimp only
    rw [lookupKey_isSome_iff, resolveOverlaps_keys, assignCoordinates_keys]
    exact minimizeCrossings_flatten_mem _ g id

/-- Claim C1 counterexample: on a 21-node dependency chain the layering
loop stops at the 20-layer bound with node u still unassigned, and u is
then simply omitted from the returned Layout - the key sets of
Layout.Nodes and Graph.Nodes differ. -/
theorem C1_counterexample :
    (lookupKey gChain.nodes "u").isSome = true ∧
      (lookupKey (CalculateImprovedLayout fracSqrt dummyTrig gChain
        chainIds "TB" ⟨100, 1⟩ ⟨50, 1⟩ ⟨100, 1⟩ ⟨100, 1⟩).nodes
        "u").isSome = false := by
  constructor
  · decide
  · rw [Bool.eq_false_iff]
    intro hcontra
    have hmem := (pipeline_keys fracSqrt dummyTrig gChain chainIds "TB"
      ⟨100, 1⟩ ⟨50, 1⟩ ⟨100, 1⟩ ⟨100, 1⟩ "u").mp hcontra
    have : ("u" ∈ (assignLayersWithGrouping gChain chainIds).flatten) =
        False := by
      simp only [eq_iff_iff, iff_false]
      decide
    rw [this] at hmem
    exact hmem

/-- Claim C1 (corrected): the Layout returned by CalculateImprovedLayout
contains a NodeLayout exactly for the ids the bounded layering assigns to
layers; every assigned id is a key of Graph.Nodes, but a node still
unassigned when the 20-layer bound is reached is omitted, not appended
(see the counterexample), so the key sets agree exactly when layering
covers every node. -/
theorem C1_layout_keys (sqrtF : Frac → Frac) (trig : TrigFns) (g : Graph)
    (order : List String) (dir : String) (w h hs vs : Frac) (id : String) :
    ((lookupKey (CalculateImprovedLayout sqrtF trig g order dir w h hs
        vs).nodes id).isSome = true ↔
      id ∈ (assignLayersWithGrouping g order).flatten) ∧
    ((assignLayersWithGrouping g order).flatten.all
      (fun j => (lookupKey g.nodes j).isSome) = true) := by
  constructor
  · exact pipeline_keys sqrtF trig g order dir w h hs vs id
  · rw [List.all_eq_true]
    intro j hj
    rw [lookupKey_isSome_iff]
    exact assignLayers_subset g order j hj

/-- A sampled cubic always has at least its two endpoints. -/
theorem cubicBezierPoints_len (p0 p1 p2 p3 : Point) (steps : Nat) :
    2 ≤ (cubicBezierPoints p0 p1 p2 p3 steps).length := by
  unfold cubicBezierPoints
  simp only [List.length_cons, List.length_append, List.length_map,
    List.length_singleton]
  omega

/-- Straight routes have at least two points. -/
theorem routeStraightWithOffset_len (sqrtF : Frac → Frac) (ps pe : Point)
    (offset : Frac) :
    2 ≤ (routeStraightWithOffset sqrtF ps pe offset).length := by
  unfold routeStraightWithOffset
  dsimp only
  split
  · simp
  · split
    · simp
    · simp

/-- Orthogonal routes have at least two points. -/
theorem routeOrthogonal_len (dir : String) (ps pe : Point) (offset : Frac) :
    2 ≤ (routeOrthogonal dir ps pe offset).length := by
  unfold routeOrthogonal
  dsimp only
  split
  · simp
  · split
    · simp
    · simp

/-- Generated Bezier curves have at least two points. -/
theorem generateBezierCurve_len (sqrtF : Frac → Frac) (dir : String)
    (ps pe : Point) : 2 ≤ (generateBezierCurve sqrtF dir ps pe).length := by
  unfold generateBezierCurve
  dsimp only
  split
  · simp
  · split
    · exact cubicBezierPoints_len _ _ _ _ _
    · split
      · exact cubicBezierPoints_len _ _ _ _ _
      · exact cubicBezierPoints_len _ _ _ _ _

/-- Curved routes have at least two points. -/
theorem routeCurvedWithOffset_len (sqrtF : Frac → Frac) (dir : String)
    (ps pe : Point) (offset : Frac) :
    2 ≤ (routeCurvedWithOffset sqrtF dir ps pe offset).length := by
  unfold routeCurvedWithOffset
  dsimp only
  split
  · exact generateBezierCurve_len _ _ _ _
  · split
    · simp
    · split
      · exact cubicBezierPoints_len _ _ _ _ _
      · split
        · exact cubicBezierPoints_len _ _ _ _ _
        · exact cubicBezierPoints_len _ _ _ _ _

/-- Avoidance routes have at least two points. -/
theorem routeCurvedAvoidance_len (sqrtF : Frac → Frac) (dir : String)
    (ps pe : Point) (offset : Frac) :
    2 ≤ (routeCurvedAvoidance sqrtF dir ps pe offset).length := by
  unfold routeCurvedAvoidance
  dsimp only
  rw [List.length_append]
  have := routeCurvedWithOffset_len sqrtF dir ps
    (findAvoidanceWaypoint dir ps pe) offset
  omega

/-- Every routed edge path has at least two points. -/
theorem routeEdgeWithConnection_len (sqrtF : Frac → Frac) (trig : TrigFns)
    (ln : List (String × NodeLayout)) (dir : String) (fN tN : NodeLayout)
    (fId tId : String) (pOff cOff : Frac) :
    2 ≤ (routeEdgeWithConnection sqrtF trig ln dir fN tN fId tId pOff
      cOff).length := by
  unfold routeEdgeWithConnection
  dsimp only
  split
  · exact routeStraightWithOffset_len _ _ _ _
  · split
    · exact routeOrthogonal_len _ _ _ _
    · split
      · exact routeCurvedAvoidance_len _ _ _ _ _
      · exact routeCurvedWithOffset_len _ _ _ _ _

/-- The edge list of an endpoint-guarded routing fold is the accumulated
edges followed by the qualifying edges, in order. -/
theorem routeFold_edges (ln : List (String × NodeLayout))
    (mkEl : Nat × GEdge → NodeLayout → NodeLayout → EdgeLayout)
    (hmk : ∀ ie fn tn, (mkEl ie fn tn).edge = ie.2) :
    ∀ (ies : List (Nat × GEdge)) (acc : List EdgeLayout),
      ((ies.foldl
        (fun acc' ie =>
          match lookupKey ln ie.2.fromN.id, lookupKey ln ie.2.toN.id with
          | some fn, some tn => acc' ++ [mkEl ie fn tn]
          | _, _ => acc') acc).map (fun el => el.edge))
        = acc.map (fun el => el.edge) ++
          (ies.map Prod.snd).filter
            (fun e => (lookupKey ln e.fromN.id).isSome &&
              (lookupKey ln e.toN.id).isSome) := by
  intro ies
  induction ies with
  | nil => intro acc; simp
  | cons ie rest ih =>
      intro acc
      simp only [List.foldl_cons, List.map_cons, List.filter_cons]
      cases hf : lookupKey ln ie.2.fromN.id with
      | none =>
          simp only [hf, Option.isSome_none, Bool.false_and, if_neg
            (by simp : ¬ (false = true))]
          exact ih acc
      | some fn =>
          cases ht : lookupKey ln ie.2.toN.id with
          | none =>
              simp only [hf, ht, Option.isSome_none, Option.isSome_some,
                Bool.true_and, if_neg (by simp : ¬ (false = true))]
              exact ih acc
          | some tn =>
              simp only [hf, ht, Option.isSome_some, Bool.true_and,
                if_pos rfl]
              rw [ih (acc ++ [mkEl ie fn tn])]
              rw [List.map_append, List.map_singleton, hmk ie fn tn,
                List.append_assoc]
              rfl

/-- Point-count preservation through the routing fold. -/
theorem routeFold_len (ln : List (String × NodeLayout))
    (mkEl : Nat × GEdge → NodeLayout → NodeLayout → EdgeLayout)
    (hmk : ∀ ie fn tn, 2 ≤ (mkEl ie fn tn).points.length) :
    ∀ (ies : List (Nat × GEdge)) (acc : List EdgeLayout),
      (∀ el ∈ acc, 2 ≤ el.points.length) →
      ∀ el ∈ ies.foldl
        (fun acc' ie =>
          match lookupKey ln ie.2.fromN.id, lookupKey ln ie.2.toN.id with
          | some fn, some tn => acc' ++ [mkEl ie fn tn]
          | _, _ => acc') acc, 2 ≤ el.points.length := by
  intro ies
  induction ies with
  | nil => intro acc hacc; exact hacc
  | cons ie rest ih =>
      intro acc hacc
      simp only [List.foldl_cons]
      cases hf : lookupKey ln ie.2.fromN.id with
      | none => exact ih acc hacc
      | some fn =>
          cases ht : lookupKey ln ie.2.toN.id with
          | none => exact ih acc hacc
          | some tn =>
              refine ih (acc ++ [mkEl ie fn tn]) ?_
              intro el hel
              rcases List.mem_append.mp hel with h | h
              · exact hacc el h
              · simp only [List.mem_singleton] at h
                subst h
                exact hmk ie fn tn

/-- Claim C10 (confirmed): RouteEdges returns, in Graph.Edges order,
exactly one EdgeLayout per edge whose two endpoint ids have node layouts
(edges with a missing endpoint are silently skipped, never an error), the
result is never longer than Graph.Edges, and every returned path has at
least two points. -/
theorem C10_routeEdges_total (sqrtF : Frac → Frac) (trig : TrigFns)
    (ln : List (String × NodeLayout)) (dir : String) (g : Graph) :
    ((RouteEdges sqrtF trig ln dir g).map (fun el => el.edge) =
      g.edges.filter
        (fun e => (lookupKey ln e.fromN.id).isSome &&
          (lookupKey ln e.toN.id).isSome)) ∧
    ((RouteEdges sqrtF trig ln dir g).all
      (fun el => Nat.ble 2 el.points.length) = true) ∧
    (RouteEdges sqrtF trig ln dir g).length ≤ g.edges.length := by
  have hedges : (RouteEdges sqrtF trig ln dir g).map (fun el => el.edge) =
      g.edges.filter
        (fun e => (lookupKey ln e.fromN.id).isSome &&
          (lookupKey ln e.toN.id).isSome) := by
    unfold RouteEdges
    dsimp only
    rw [routeFold_edges ln _ (fun ie fn tn => rfl) g.edges.enum []]
    rw [List.enum_map_snd]
    rfl
  refine ⟨hedges, ?_, ?_⟩
  · rw [List.all_eq_true]
    intro el hel
    rw [Nat.ble_eq]
    revert el hel
    unfold RouteEdges
    dsimp only
    refine routeFold_len ln _ ?_ g.edges.enum [] (by intro el h; cases h)
    intro ie fn tn
    exact routeEdgeWithConnection_len _ _ _ _ _ _ _ _ _ _
  · have := congrArg List.length hedges
    rw [List.length_map] at this
    rw [this]
    exact List.length_filter_le _ _

/-- Looking up the freshly inserted key. -/
theorem lookupKey_putKey_self {α : Type} (l : List (String × α))
    (k : String) (v : α) : lookupKey (putKey l k v) k = some v := by
  induction l with
  | nil => simp [putKey, lookupKey]
  | cons kv rest ih =>
      by_cases hk : kv.1 = k
      · simp [putKey, hk, lookupKey]
      · simp [putKey, hk, lookupKey, ih]

/-- Insertion leaves other lookups unchanged. -/
theorem lookupKey_putKey_ne {α : Type} (l : List (String × α))
    (k j : String) (v : α) (h : j ≠ k) :
    lookupKey (putKey l k v) j = lookupKey l j := by
  have hkj : ¬ k = j := fun hh => h hh.symm
  induction l with
  | nil => simp only [putKey, lookupKey, if_neg hkj]
  | cons kv rest ih =>
      by_cases hk : kv.1 = k
      · subst hk
        simp only [putKey, if_pos rfl, lookupKey, if_neg hkj]
      · simp only [putKey, if_neg hk, lookupKey]
        by_cases hj : kv.1 = j
        · rw [if_pos hj, if_pos hj]
        · rw [if_neg hj, if_neg hj, ih]

/-- An insertion fold over ids that do not include the key leaves its
lookup unchanged. -/
theorem innerFold_skip {α : Type} (f : Nat × String → α) :
    ∀ (l : List (Nat × String)) (acc : List (String × α)) (id : String),
      id ∉ l.map Prod.snd →
      lookupKey (l.foldl (fun acc' ni => putKey acc' ni.2 (f ni)) acc) id =
        lookupKey acc id := by
  intro l
  induction l with
  | nil => intro acc id _; rfl
  | cons ni rest ih =>
      intro acc id hid
      simp only [List.map_cons, List.mem_cons, not_or] at hid
      simp only [List.foldl_cons]
      rw [ih _ id hid.2, lookupKey_putKey_ne _ _ _ _ hid.1]

/-- An insertion fold over an enumerated duplicate-free layer assigns the
id at position j the value built from index n + j. -/
theorem innerFold_hit {α : Type} (f : Nat × String → α) :
    ∀ (l : List String) (n : Nat) (acc : List (String × α)) (j : Nat)
      (hj : j < l.length) (id : String),
      l.Nodup → l.get ⟨j, hj⟩ = id →
      lookupKey ((List.enumFrom n l).foldl
        (fun acc' ni => putKey acc' ni.2 (f ni)) acc) id =
        some (f (n + j, id)) := by
  intro l
  induction l with
  | nil => intro n acc j hj; cases hj
  | cons x xs ih =>
      intro n acc j hj id hnod hid
      cases j with
      | zero =>
          simp only [List.get] at hid
          subst hid
          show lookupKey ((List.enumFrom (n + 1) xs).foldl _
            (putKey acc x (f (n, x)))) x = _
          rw [innerFold_skip f _ _ x
            (by rw [List.enumFrom_map_snd]
                exact (List.nodup_cons.mp hnod).1),
            lookupKey_putKey_self]
          rfl
      | succ j' =>
          have hj' : j' < xs.length := by
            simpa using hj
          show lookupKey ((List.enumFrom (n + 1) xs).foldl _
            (putKey acc x (f (n, x)))) id = _
          rw [ih (n + 1) _ j' hj' id (List.nodup_cons.mp hnod).2
            (by simpa using hid)]
          have : n + 1 + j' = n + (j' + 1) := by omega
          rw [this]

/-- A layered insertion fold over layers avoiding the id leaves its lookup
unchanged. -/
theorem outerFold_skip {α : Type}
    (F : Nat × List String → Nat × String → α) :
    ∀ (ls : List (List String)) (n : Nat) (acc : List (String × α))
      (id : String),
      id ∉ ls.flatten →
      lookupKey ((List.enumFrom n ls).foldl
        (fun acc2 li => li.2.enum.foldl
          (fun acc' ni => putKey acc' ni.2 (F li ni)) acc2) acc) id =
        lookupKey acc id := by
  intro ls
  induction ls with
  | nil => intro n acc id _; rfl
  | cons L rest ih =>
      intro n acc id hid
      rw [show (L :: rest).flatten = L ++ rest.flatten from rfl] at hid
      rw [List.mem_append, not_or] at hid
      show lookupKey ((List.enumFrom (n + 1) rest).foldl _
        (L.enum.foldl _ acc)) id = _
      rw [ih (n + 1) _ id hid.2]
      exact innerFold_skip (F (n, L)) L.enum acc id
        (by rw [show L.enum = List.enumFrom 0 L from rfl,
              List.enumFrom_map_snd]
            exact hid.1)

/-- A layered insertion fold over duplicate-free layers assigns the id in
layer lidx at position j the value built from that cell. -/
theorem outerFold_hit {α : Type}
    (F : Nat × List String → Nat × String → α) :
    ∀ (ls : List (List String)) (n : Nat) (acc : List (String × α))
      (lidx : Nat) (hl : lidx < ls.length) (j : Nat)
      (hj : j < (ls.get ⟨lidx, hl⟩).length) (id : String),
      ls.flatten.Nodup → (ls.get ⟨lidx, hl⟩).get ⟨j, hj⟩ = id →
      lookupKey ((List.enumFrom n ls).foldl
        (fun acc2 li => li.2.enum.foldl
          (fun acc' ni => putKey acc' ni.2 (F li ni)) acc2) acc) id =
        some (F (n + lidx, ls.get ⟨lidx, hl⟩) (j, id)) := by
  intro ls
  induction ls with
  | nil => intro n acc lidx hl; cases hl
  | cons L rest ih =>
      intro n acc lidx hl j hj id hnod hid
      have hflat : (L :: rest).flatten = L ++ rest.flatten := rfl
      rw [hflat] at hnod
      cases lidx with
      | zero =>
          have hidL : id ∈ L := by
            rw [← hid]
            exact List.get_mem L j hj
          show lookupKey ((List.enumFrom (n + 1) rest).foldl _
            (L.enum.foldl _ acc)) id = _
          rw [outerFold_skip F rest (n + 1) _ id
            (fun hmem => List.disjoint_of_nodup_append hnod hidL hmem)]
          rw [show L.enum = List.enumFrom 0 L from rfl]
          rw [innerFold_hit (F (n, L)) L 0 acc j hj id
            hnod.of_append_left hid]
          rw [Nat.zero_add, Nat.add_zero]
          rfl
      | succ lidx' =>
          have hl' : lidx' < rest.length := by simpa using hl
          show lookupKey ((List.enumFrom (n + 1) rest).foldl _
            (L.enum.foldl _ acc)) id = _
          rw [ih (n + 1) _ lidx' hl' j hj id hnod.of_append_right hid]
          have : n + 1 + lidx' = n + (lidx' + 1) := by omega
          rw [this]
          rfl

/-- Value order: strict implies non-strict. -/
theorem fble_of_fblt (a b : Frac) (h : Frac.blt a b = true) :
    Frac.ble a b = true := by
  simp only [Frac.blt, decide_eq_true_eq] at h
  simp only [Frac.ble, decide_eq_true_eq]
  exact le_of_lt h

/-- Value order: a failed strict comparison flips to non-strict. -/
theorem fble_of_not_fblt (a b : Frac) (h : Frac.blt a b = false) :
    Frac.ble b a = true := by
  simp only [Frac.blt, decide_eq_false_iff_not] at h
  simp only [Frac.ble, decide_eq_true_eq]
  omega

/-- Value order is reflexive. -/
theorem fble_refl (a : Frac) : Frac.ble a a = true := by
  simp [Frac.ble]

/-- Value order is transitive on fractions with positive denominators. -/
theorem fble_trans (a b c : Frac) (ha : 0 < a.d) (hb : 0 < b.d)
    (hc : 0 < c.d) (h1 : Frac.ble a b = true) (h2 : Frac.ble b c = true) :
    Frac.ble a c = true := by
  simp only [Frac.ble, decide_eq_true_eq] at h1 h2 ⊢
  nlinarith [mul_le_mul_of_nonneg_right h1 (le_of_lt hc),
    mul_le_mul_of_nonneg_right h2 (le_of_lt ha)]

/-- The Width/Height fold computes a maximum: its result is the initial
value or a list element, and dominates the initial value and every
element (positive denominators make cross-multiplied comparison a total
order). -/
theorem foldMax_spec :
    ∀ (l : List Frac) (init : Frac), 0 < init.d → (∀ e ∈ l, 0 < e.d) →
      (foldMax l init ∈ init :: l) ∧
      Frac.ble init (foldMax l init) = true ∧
      ∀ e ∈ l, Frac.ble e (foldMax l init) = true := by
  intro l
  induction l with
  | nil =>
      intro init _ _
      exact ⟨List.mem_singleton.mpr rfl, fble_refl init,
        by intro e he; cases he⟩
  | cons e rest ih =>
      intro init hinit hdens
      have hed : 0 < e.d := hdens e (List.mem_cons_self _ _)
      have hrest : ∀ x ∈ rest, 0 < x.d :=
        fun x hx => hdens x (List.mem_cons_of_mem _ hx)
      have hstep : foldMax (e :: rest) init =
          foldMax rest (if Frac.blt init e then e else init) := rfl
      by_cases hblt : Frac.blt init e = true
      · rw [hstep, if_pos hblt]
        obtain ⟨hmem, hble, hall⟩ := ih e hed hrest
        have hfmd : 0 < (foldMax rest e).d := by
          rcases List.mem_cons.mp hmem with hh | hh
          · rw [hh]; exact hed
          · exact hrest _ hh
        refine ⟨?_, ?_, ?_⟩
        · rcases List.mem_cons.mp hmem with hh | hh
          · rw [hh]; exact List.mem_cons_of_mem _ (List.mem_cons_self _ _)
          · exact List.mem_cons_of_mem _ (List.mem_cons_of_mem _ hh)
        · exact fble_trans init e (foldMax rest e) hinit hed hfmd
            (fble_of_fblt init e hblt) hble
        · intro x hx
          rcases List.mem_cons.mp hx with hh | hh
          · rw [hh]; exact hble
          · exact hall x hh
      · rw [hstep, if_neg hblt]
        obtain ⟨hmem, hble, hall⟩ := ih init hinit hrest
        have hfmd : 0 < (foldMax rest init).d := by
          rcases List.mem_cons.mp hmem with hh | hh
          · rw [hh]; exact hinit
          · exact hrest _ hh
        refine ⟨?_, hble, ?_⟩
        · rcases List.mem_cons.mp hmem with hh | hh
          · rw [hh]; exact List.mem_cons_self _ _
          · exact List.mem_cons_of_mem _ (List.mem_cons_of_mem _ hh)
        · intro x hx
          rcases List.mem_cons.mp hx with hh | hh
          · rw [hh]
            exact fble_trans e init (foldMax rest init) hed hinit hfmd
              (fble_of_not_fblt init e (Bool.eq_false_iff.mpr hblt)) hble
          · exact hall x hh

/-- Claim C8 (corrected): assignCoordinatesWithSpacing assigns the node at
position nidx of layer lidx exactly the configured size, the layer index,
and the spec coordinate formula (cross-axis offset
(maxLayerWidth - thisLayerWidth)/2 plus nodeIdx steps, main axis
layerIdx * (size + spacing), reversed for BT/RL); and the returned width
(resp. height) equals the maximum over nodes of position + size on that
axis plus one horizontal (resp. vertical) spacing unit, where the fold is
a true maximum for layouts with positive denominators. The correction:
these are the width/height of assignCoordinatesWithSpacing's own
association list - CalculateImprovedLayout computes them BEFORE
resolveOverlaps moves nodes, so the final Layout.Width need not bound the
final node extents (see the counterexample). -/
theorem C8_coordinates (layers : List (List String)) (direction : String)
    (w h hs vs : Frac) (id : String) (lidx nidx : Nat)
    (hl : lidx < layers.length)
    (hn : nidx < (layers.get ⟨lidx, hl⟩).length)
    (huniq : layers.flatten.Nodup)
    (hid : (layers.get ⟨lidx, hl⟩).get ⟨nidx, hn⟩ = id) :
    lookupKey (assignCoordinatesWithSpacing layers direction w h hs vs).1
        id =
      some ⟨w, h, lidx,
        specCellPoint layers direction w h hs vs lidx nidx⟩ ∧
    (assignCoordinatesWithSpacing layers direction w h hs vs).2.1 =
      foldMax
        (extentsX (assignCoordinatesWithSpacing
          layers direction w h hs vs).1) 0 + hs ∧
    (assignCoordinatesWithSpacing layers direction w h hs vs).2.2 =
      foldMax
        (extentsY (assignCoordinatesWithSpacing
          layers direction w h hs vs).1) 0 + vs ∧
    ((∀ e ∈ extentsX (assignCoordinatesWithSpacing
        layers direction w h hs vs).1, 0 < e.d) →
      foldMax (extentsX (assignCoordinatesWithSpacing
          layers direction w h hs vs).1) 0 ∈
        (0 : Frac) :: extentsX (assignCoordinatesWithSpacing
          layers direction w h hs vs).1 ∧
      Frac.ble 0 (foldMax (extentsX (assignCoordinatesWithSpacing
        layers direction w h hs vs).1) 0) = true ∧
      ∀ e ∈ extentsX (assignCoordinatesWithSpacing
          layers direction w h hs vs).1,
        Frac.ble e (foldMax (extentsX (assignCoordinatesWithSpacing
          layers direction w h hs vs).1) 0) = true) ∧
    ((∀ e ∈ extentsY (assignCoordinatesWithSpacing
        layers direction w h hs vs).1, 0 < e.d) →
      foldMax (extentsY (assignCoordinatesWithSpacing
          layers direction w h hs vs).1) 0 ∈
        (0 : Frac) :: extentsY (assignCoordinatesWithSpacing
          layers direction w h hs vs).1 ∧
      Frac.ble 0 (foldMax (extentsY (assignCoordinatesWithSpacing
        layers direction w h hs vs).1) 0) = true ∧
      ∀ e ∈ extentsY (assignCoordinatesWithSpacing
          layers direction w h hs vs).1,
        Frac.ble e (foldMax (extentsY (assignCoordinatesWithSpacing
          layers direction w h hs vs).1) 0) = true) := by
  refine ⟨?_, ?_, ?_,
    fun hd => foldMax_spec _ 0 (by decide) hd,
    fun hd => foldMax_spec _ 0 (by decide) hd⟩
  · unfold assignCoordinatesWithSpacing
    dsimp only
    rw [show layers.enum = List.enumFrom 0 layers from rfl]
    rw [outerFold_hit _ layers 0 [] lidx hl nidx hn id huniq hid]
    simp only [specCellPoint, Nat.zero_add, List.getD_eq_getElem layers [] hl,
      List.get_eq_getElem]
  · unfold assignCoordinatesWithSpacing
    simp only [extentsX, foldMax, List.foldl_map]
  · unfold assignCoordinatesWithSpacing
    simp only [extentsY, foldMax, List.foldl_map]

/-- Witness for C8_coordinates: a single TB layer [["A"]] with 100x50
nodes and spacing 30, at layer 0 position 0. -/
theorem C8_witness :
    lookupKey (assignCoordinatesWithSpacing [["A"]] "TB"
        ⟨100, 1⟩ ⟨50, 1⟩ ⟨30, 1⟩ ⟨30, 1⟩).1 "A" =
      some ⟨⟨100, 1⟩, ⟨50, 1⟩, 0,
        specCellPoint [["A"]] "TB" ⟨100, 1⟩ ⟨50, 1⟩ ⟨30, 1⟩ ⟨30, 1⟩ 0 0⟩ ∧
    (assignCoordinatesWithSpacing [["A"]] "TB"
        ⟨100, 1⟩ ⟨50, 1⟩ ⟨30, 1⟩ ⟨30, 1⟩).2.1 =
      foldMax (extentsX (assignCoordinatesWithSpacing [["A"]] "TB"
        ⟨100, 1⟩ ⟨50, 1⟩ ⟨30, 1⟩ ⟨30, 1⟩).1) 0 + ⟨30, 1⟩ ∧
    (assignCoordinatesWithSpacing [["A"]] "TB"
        ⟨100, 1⟩ ⟨50, 1⟩ ⟨30, 1⟩ ⟨30, 1⟩).2.2 =
      foldMax (extentsY (assignCoordinatesWithSpacing [["A"]] "TB"
        ⟨100, 1⟩ ⟨50, 1⟩ ⟨30, 1⟩ ⟨30, 1⟩).1) 0 + ⟨30, 1⟩ ∧
    ((∀ e ∈ extentsX (assignCoordinatesWithSpacing [["A"]] "TB"
        ⟨100, 1⟩ ⟨50, 1⟩ ⟨30, 1⟩ ⟨30, 1⟩).1, 0 < e.d) →
      foldMax (extentsX (assignCoordinatesWithSpacing [["A"]] "TB"
          ⟨100, 1⟩ ⟨50, 1⟩ ⟨30, 1⟩ ⟨30, 1⟩).1) 0 ∈
        (0 : Frac) :: extentsX (assignCoordinatesWithSpacing [["A"]] "TB"
          ⟨100, 1⟩ ⟨50, 1⟩ ⟨30, 1⟩ ⟨30, 1⟩).1 ∧
      Frac.ble 0 (foldMax (extentsX (assignCoordinatesWithSpacing
        [["A"]] "TB" ⟨100, 1⟩ ⟨50, 1⟩ ⟨30, 1⟩ ⟨30, 1⟩).1) 0) = true ∧
      ∀ e ∈ extentsX (assignCoordinatesWithSpacing [["A"]] "TB"
          ⟨100, 1⟩ ⟨50, 1⟩ ⟨30, 1⟩ ⟨30, 1⟩).1,
        Frac.ble e (foldMax (extentsX (assignCoordinatesWithSpacing
          [["A"]] "TB" ⟨100, 1⟩ ⟨50, 1⟩ ⟨30, 1⟩ ⟨30, 1⟩).1) 0) = true) ∧
    ((∀ e ∈ extentsY (assignCoordinatesWithSpacing [["A"]] "TB"
        ⟨100, 1⟩ ⟨50, 1⟩ ⟨30, 1⟩ ⟨30, 1⟩).1, 0 < e.d) →
      foldMax (extentsY (assignCoordinatesWithSpacing [["A"]] "TB"
          ⟨100, 1⟩ ⟨50, 1⟩ ⟨30, 1⟩ ⟨30, 1⟩).1) 0 ∈
        (0 : Frac) :: extentsY (assignCoordinatesWithSpacing [["A"]] "TB"
          ⟨100, 1⟩ ⟨50, 1⟩ ⟨30, 1⟩ ⟨30, 1⟩).1 ∧
      Frac.ble 0 (foldMax (extentsY (assignCoordinatesWithSpacing
        [["A"]] "TB" ⟨100, 1⟩ ⟨50, 1⟩ ⟨30, 1⟩ ⟨30, 1⟩).1) 0) = true ∧
      ∀ e ∈ extentsY (assignCoordinatesWithSpacing [["A"]] "TB"
          ⟨100, 1⟩ ⟨50, 1⟩ ⟨30, 1⟩ ⟨30, 1⟩).1,
        Frac.ble e (foldMax (extentsY (assignCoordinatesWithSpacing
          [["A"]] "TB" ⟨100, 1⟩ ⟨50, 1⟩ ⟨30, 1⟩ ⟨30, 1⟩).1) 0) = true) :=
  C8_coordinates [["A"]] "TB" ⟨100, 1⟩ ⟨50, 1⟩ ⟨30, 1⟩ ⟨30, 1⟩ "A" 0 0
    (by decide) (by decide) (by decide) (by decide)
